import Mathlib

/-!
Verification of the core algorithmic components of the zune-image repository:
the format sniffer (`zune-image/src/codecs.rs`), the CRC-32 slice-by-8 engine
(`zune-png/src/crc.rs`) and the QOI encoder (`zune-qoi/src/encoder.rs`).

Machine integers (`u8`, `u32`, `u64`, `usize`) are embedded as `Nat`, with
wrapping arithmetic made explicit (`% 256`, `% 2^32`, ...) exactly where the
Rust source wraps.  Byte buffers are `List Nat` whose elements are `< 256`.
-/

set_option maxHeartbeats 4000000

set_option maxRecDepth 100000

namespace ZuneImage

/-! ## Format sniffer (`zune-image/src/codecs.rs`) -/

/-- All supported decoders (`enum SupportedDecoders`). -/
inductive SupportedDecoders
  | Jpeg
  | Png
  | PPM
  | PSD
  | Farbfeld
deriving DecidableEq

/-- The magic-byte table (`static MAGIC_BYTES`), in declaration order. -/
def MAGIC_BYTES : List (List Nat × SupportedDecoders) :=
  [([137, 80, 78, 71, 13, 10, 26, 10], .Png),
   ([0xff, 0xd8, 0xff], .Jpeg),
   ([0x50, 0x36], .PPM),
   ([0x50, 0x35], .PPM),
   ([0x38, 0x42, 0x50, 0x53], .PSD),
   ([0x66, 0x61, 0x72, 0x62, 0x66, 0x65, 0x6c, 0x64], .Farbfeld)]

/-- Rust slice `starts_with`: `bytes.starts_with(magic)`. -/
def starts_with : List Nat → List Nat → Bool
  | _, [] => true
  | [], _ :: _ => false
  | b :: bs, m :: ms => b == m && starts_with bs ms

/-- `guess_format`: first entry of `MAGIC_BYTES` whose magic is a prefix of
the input wins; `None` when no entry matches. -/
def guess_format (bytes : List Nat) : Option SupportedDecoders :=
  (MAGIC_BYTES.find? (fun p => starts_with bytes p.1)).map (fun p => p.2)

theorem starts_with_append (m tail : List Nat) :
    starts_with (m ++ tail) m = true := by
  induction m with
  | nil => cases tail <;> rfl
  | cons b bs ih => simp [starts_with, ih]

/-! ## Claim C9: sniffer -/

/-- C9: for each of the six magic prefixes, `guess_format` on the prefix
followed by any tail returns the mapped tag; any buffer that starts with
none of the prefixes (in particular one too short to complete a partial
match) yields `none`. -/
theorem C9_sniffer :
    (∀ tail, guess_format ([137, 80, 78, 71, 13, 10, 26, 10] ++ tail) = some .Png) ∧
    (∀ tail, guess_format ([0xff, 0xd8, 0xff] ++ tail) = some .Jpeg) ∧
    (∀ tail, guess_format ([0x50, 0x36] ++ tail) = some .PPM) ∧
    (∀ tail, guess_format ([0x50, 0x35] ++ tail) = some .PPM) ∧
    (∀ tail, guess_format ([0x38, 0x42, 0x50, 0x53] ++ tail) = some .PSD) ∧
    (∀ tail, guess_format ([0x66, 0x61, 0x72, 0x62, 0x66, 0x65, 0x6c, 0x64] ++ tail)
        = some .Farbfeld) ∧
    (∀ bytes, (∀ p ∈ MAGIC_BYTES, starts_with bytes p.1 = false) →
        guess_format bytes = none) := by
  refine ⟨?_, ?_, ?_, ?_, ?_, ?_, ?_⟩
  · intro tail
    simp [guess_format, MAGIC_BYTES, List.find?, starts_with]
  · intro tail
    simp [guess_format, MAGIC_BYTES, List.find?, starts_with]
  · intro tail
    simp [guess_format, MAGIC_BYTES, List.find?, starts_with]
  · intro tail
    simp [guess_format, MAGIC_BYTES, List.find?, starts_with]
  · intro tail
    simp [guess_format, MAGIC_BYTES, List.find?, starts_with]
  · intro tail
    simp [guess_format, MAGIC_BYTES, List.find?, starts_with]
  · intro bytes h
    have hfind : List.find? (fun p => starts_with bytes p.1) MAGIC_BYTES = none :=
      List.find?_eq_none.mpr (fun p hp => by simp [h p hp])
    simp [guess_format, hfind]

/-- Witness for C9 at concrete inputs: a PNG-tagged buffer and a buffer
matching no magic (a one-byte partial PPM match). -/
theorem C9_sniffer_witness :
    guess_format ([137, 80, 78, 71, 13, 10, 26, 10] ++ [0, 1, 2]) = some .Png ∧
    guess_format [0x50] = none := by
  refine ⟨C9_sniffer.1 [0, 1, 2], ?_⟩
  exact C9_sniffer.2.2.2.2.2.2 [0x50] (by decide)

/-! ## CRC-32 engine (`zune-png/src/crc.rs`) -/

/-- Modelled from the spec: one bit-round of the reflected PNG CRC-32
polynomial `0xEDB88320`; the table file `crc_tables.rs` is not among the
covered sources, so its tables are built from the spec's description
("eight 256-entry tables for the reflected PNG CRC-32 polynomial"). -/
def crcRound (t : Nat) : Nat :=
  if t % 2 = 1 then (t >>> 1) ^^^ 0xEDB88320 else t >>> 1

/-- Modelled from the spec: the slice-by-1 table `T[0]`; the entry for byte
`i` is eight polynomial bit-rounds applied to `i`. -/
def CRC32_SLICE1_TABLE (i : Nat) : Nat := crcRound^[8] i

/-- One CRC step consuming a zero byte: `x ↦ (x >> 8) ^ T[0][x & 0xFF]`. -/
def crcStep (x : Nat) : Nat := (x >>> 8) ^^^ CRC32_SLICE1_TABLE (x &&& 0xFF)

/-- Modelled from the spec: the flattened slice-by-8 table; the entry at
index `0x100 * k + i` is `T[k][i] = crcStep^[k] (T[0][i])`, the standard
slice-by-8 table construction for the reflected polynomial. -/
def CRC32_SLICE8_TABLE (idx : Nat) : Nat :=
  crcStep^[idx / 256] (CRC32_SLICE1_TABLE (idx % 256))

/-- The body of the slice-by-1 loop in both `crc32_slice8`'s remainder
handling and `_crc32_slice1`. -/
def crc32_slice1_step (crc datum : Nat) : Nat :=
  (crc >>> 8) ^^^ CRC32_SLICE1_TABLE ((crc &&& 0xFF) ^^^ datum)

/-- `_crc32_slice1` from `crc.rs`: the slice-by-1 reference loop. -/
def _crc32_slice1 (data : List Nat) (crc : Nat) : Nat :=
  data.foldl crc32_slice1_step crc

/-- `crc32_slice8` from `crc.rs`: aligned 8-byte chunks through the
slice-by-8 tables (`u64` loaded little-endian, split into `v1`/`v2`),
then the remainder bytes through the slice-by-1 table. -/
def crc32_slice8 : List Nat → Nat → Nat
  | b0 :: b1 :: b2 :: b3 :: b4 :: b5 :: b6 :: b7 :: rest, crc =>
    let chunk_loaded : Nat :=
      b0 + b1 * 2 ^ 8 + b2 * 2 ^ 16 + b3 * 2 ^ 24 +
        b4 * 2 ^ 32 + b5 * 2 ^ 40 + b6 * 2 ^ 48 + b7 * 2 ^ 56
    let v1 := chunk_loaded &&& 0xFFFFFFFF
    let v2 := chunk_loaded >>> 32
    crc32_slice8 rest
      (CRC32_SLICE8_TABLE (0x700 + (((crc ^^^ v1) >>> 0) &&& 0xFF)) ^^^
        CRC32_SLICE8_TABLE (0x600 + (((crc ^^^ v1) >>> 8) &&& 0xFF)) ^^^
        CRC32_SLICE8_TABLE (0x500 + (((crc ^^^ v1) >>> 16) &&& 0xFF)) ^^^
        CRC32_SLICE8_TABLE (0x400 + (((crc ^^^ v1) >>> 24) &&& 0xFF)) ^^^
        CRC32_SLICE8_TABLE (0x300 + ((v2 >>> 0) &&& 0xFF)) ^^^
        CRC32_SLICE8_TABLE (0x200 + ((v2 >>> 8) &&& 0xFF)) ^^^
        CRC32_SLICE8_TABLE (0x100 + ((v2 >>> 16) &&& 0xFF)) ^^^
        CRC32_SLICE8_TABLE (0x000 + ((v2 >>> 24) &&& 0xFF)))
  | rest, crc => rest.foldl crc32_slice1_step crc

/-! ### Bitwise helper lemmas -/

theorem nat_and_255 (x : Nat) : x &&& 255 = x % 256 := by
  have h := Nat.and_pow_two_sub_one_eq_mod x 8
  norm_num at h
  exact h

theorem nat_and_u32max (x : Nat) : x &&& 0xFFFFFFFF = x % 2 ^ 32 := by
  have h := Nat.and_pow_two_sub_one_eq_mod x 32
  norm_num at h
  exact h

theorem nat_xor_shiftRight (x y n : Nat) :
    (x ^^^ y) >>> n = (x >>> n) ^^^ (y >>> n) := by
  apply Nat.eq_of_testBit_eq
  intro i
  simp [Nat.testBit_shiftRight, Nat.testBit_xor]

theorem nat_xor_left_comm (a b c : Nat) : a ^^^ (b ^^^ c) = b ^^^ (a ^^^ c) := by
  rw [← Nat.xor_assoc, Nat.xor_comm a b, Nat.xor_assoc]

instance : Std.Associative (fun x y : Nat => x ^^^ y) := ⟨Nat.xor_assoc⟩

instance : Std.Commutative (fun x y : Nat => x ^^^ y) := ⟨Nat.xor_comm⟩

theorem nat_mod_two_xor (x y : Nat) : (x ^^^ y) % 2 = x % 2 ^^^ y % 2 := by
  rw [← Nat.and_one_is_mod, ← Nat.and_one_is_mod, ← Nat.and_one_is_mod,
    Nat.and_xor_distrib_right]

/-! ### Linearity of the CRC tables over XOR -/

theorem crcRound_eq (t : Nat) :
    crcRound t = (t >>> 1) ^^^ t % 2 * 3988292384 := by
  unfold crcRound
  rcases Nat.mod_two_eq_zero_or_one t with h | h <;> simp [h]

theorem crcRound_linear (x y : Nat) :
    crcRound (x ^^^ y) = crcRound x ^^^ crcRound y := by
  have hb : ∀ a ≤ 1, ∀ b ≤ 1,
      (a ^^^ b) * 3988292384 = a * 3988292384 ^^^ b * 3988292384 := by decide
  rw [crcRound_eq, crcRound_eq, crcRound_eq, nat_xor_shiftRight, nat_mod_two_xor,
    hb (x % 2) (by omega) (y % 2) (by omega)]
  simp [Nat.xor_assoc, Nat.xor_comm, nat_xor_left_comm]

theorem iterate_xor_linear (f : Nat → Nat)
    (hf : ∀ x y, f (x ^^^ y) = f x ^^^ f y) :
    ∀ (n : Nat) (x y : Nat), f^[n] (x ^^^ y) = f^[n] x ^^^ f^[n] y := by
  intro n
  induction n with
  | zero => intro x y; simp
  | succ n ih =>
    intro x y
    simp only [Function.iterate_succ_apply, hf, ih]

theorem table1_linear (x y : Nat) :
    CRC32_SLICE1_TABLE (x ^^^ y) = CRC32_SLICE1_TABLE x ^^^ CRC32_SLICE1_TABLE y :=
  iterate_xor_linear crcRound crcRound_linear 8 x y

theorem crcStep_linear (x y : Nat) :
    crcStep (x ^^^ y) = crcStep x ^^^ crcStep y := by
  unfold crcStep
  rw [nat_xor_shiftRight, Nat.and_xor_distrib_right, table1_linear]
  simp [Nat.xor_assoc, Nat.xor_comm, nat_xor_left_comm]

theorem crcStep_iterate_linear (n x y : Nat) :
    crcStep^[n] (x ^^^ y) = crcStep^[n] x ^^^ crcStep^[n] y :=
  iterate_xor_linear crcStep crcStep_linear n x y

theorem crcRound_zero : crcRound 0 = 0 := by decide

theorem table1_zero : CRC32_SLICE1_TABLE 0 = 0 := by decide

theorem crcStep_byte (b : Nat) (hb : b < 256) :
    crcStep b = CRC32_SLICE1_TABLE b := by
  unfold crcStep
  rw [nat_and_255, Nat.mod_eq_of_lt hb, Nat.shiftRight_eq_div_pow,
    Nat.div_eq_of_lt (by omega)]
  simp

theorem crc32_slice1_step_eq (c b : Nat) (hb : b < 256) :
    crc32_slice1_step c b = crcStep (c ^^^ b) := by
  unfold crc32_slice1_step crcStep
  rw [nat_xor_shiftRight, Nat.shiftRight_eq_div_pow b,
    Nat.div_eq_of_lt (by omega), Nat.and_xor_distrib_right, nat_and_255 b,
    Nat.mod_eq_of_lt hb]
  simp

/-! ### Value bounds -/

theorem crcRound_lt (t : Nat) (h : t < 2 ^ 32) : crcRound t < 2 ^ 32 := by
  have h1 : t >>> 1 < 2 ^ 32 := by rw [Nat.shiftRight_eq_div_pow]; omega
  unfold crcRound
  split
  · exact Nat.xor_lt_two_pow h1 (by norm_num)
  · exact h1

theorem table1_lt (i : Nat) (h : i < 2 ^ 32) : CRC32_SLICE1_TABLE i < 2 ^ 32 := by
  have hn : ∀ n, crcRound^[n] i < 2 ^ 32 := by
    intro n
    induction n with
    | zero => simpa
    | succ n ih => rw [Function.iterate_succ_apply']; exact crcRound_lt _ ih
  exact hn 8

theorem crcStep_lt (x : Nat) (h : x < 2 ^ 32) : crcStep x < 2 ^ 32 := by
  have h1 : x >>> 8 < 2 ^ 32 := by rw [Nat.shiftRight_eq_div_pow]; omega
  have h2 : x &&& 255 < 2 ^ 32 := by rw [nat_and_255]; omega
  exact Nat.xor_lt_two_pow h1 (table1_lt _ h2)

theorem crcStep_iterate_lt (n x : Nat) (h : x < 2 ^ 32) :
    crcStep^[n] x < 2 ^ 32 := by
  induction n with
  | zero => simpa
  | succ n ih => rw [Function.iterate_succ_apply']; exact crcStep_lt _ ih

theorem crc32_slice1_step_lt (c b : Nat) (hc : c < 2 ^ 32) (hb : b < 256) :
    crc32_slice1_step c b < 2 ^ 32 := by
  rw [crc32_slice1_step_eq c b hb]
  exact crcStep_lt _ (Nat.xor_lt_two_pow hc (by omega))

theorem _crc32_slice1_lt :
    ∀ (data : List Nat) (crc : Nat), (∀ b ∈ data, b < 256) → crc < 2 ^ 32 →
      _crc32_slice1 data crc < 2 ^ 32 := by
  intro data
  induction data with
  | nil => intro crc _ hcrc; simpa [_crc32_slice1]
  | cons b rest ih =>
    intro crc hdata hcrc
    have hb : b < 256 := hdata b (by simp)
    have hrest : ∀ x ∈ rest, x < 256 := fun x hx => hdata x (by simp [hx])
    simpa [_crc32_slice1, List.foldl_cons] using
      ih (crc32_slice1_step crc b) hrest (crc32_slice1_step_lt crc b hcrc hb)

/-! ### Iterate bookkeeping -/

theorem crcStep_c0 (x : Nat) : crcStep x = crcStep^[1] x := rfl

theorem crcStep_c1 (x : Nat) : crcStep (crcStep^[1] x) = crcStep^[2] x :=
  (Function.iterate_succ_apply' crcStep 1 x).symm

theorem crcStep_c2 (x : Nat) : crcStep (crcStep^[2] x) = crcStep^[3] x :=
  (Function.iterate_succ_apply' crcStep 2 x).symm

theorem crcStep_c3 (x : Nat) : crcStep (crcStep^[3] x) = crcStep^[4] x :=
  (Function.iterate_succ_apply' crcStep 3 x).symm

theorem crcStep_c4 (x : Nat) : crcStep (crcStep^[4] x) = crcStep^[5] x :=
  (Function.iterate_succ_apply' crcStep 4 x).symm

theorem crcStep_c5 (x : Nat) : crcStep (crcStep^[5] x) = crcStep^[6] x :=
  (Function.iterate_succ_apply' crcStep 5 x).symm

theorem crcStep_c6 (x : Nat) : crcStep (crcStep^[6] x) = crcStep^[7] x :=
  (Function.iterate_succ_apply' crcStep 6 x).symm

theorem crcStep_c7 (x : Nat) : crcStep (crcStep^[7] x) = crcStep^[8] x :=
  (Function.iterate_succ_apply' crcStep 7 x).symm

theorem crcStep_a41 (x : Nat) : crcStep^[4] (crcStep^[1] x) = crcStep^[5] x :=
  (Function.iterate_add_apply crcStep 4 1 x).symm

theorem crcStep_a42 (x : Nat) : crcStep^[4] (crcStep^[2] x) = crcStep^[6] x :=
  (Function.iterate_add_apply crcStep 4 2 x).symm

theorem crcStep_a43 (x : Nat) : crcStep^[4] (crcStep^[3] x) = crcStep^[7] x :=
  (Function.iterate_add_apply crcStep 4 3 x).symm

/-! ### Decomposing eight zero-byte steps over the state bytes -/

theorem crcStep4_decomp (crc : Nat) (h : crc < 2 ^ 32) :
    crcStep^[4] crc =
      CRC32_SLICE1_TABLE (crc >>> 24 &&& 255) ^^^
        crcStep^[1] (CRC32_SLICE1_TABLE (crc >>> 16 &&& 255)) ^^^
        crcStep^[2] (CRC32_SLICE1_TABLE (crc >>> 8 &&& 255)) ^^^
        crcStep^[3] (CRC32_SLICE1_TABLE (crc &&& 255)) := by
  have hstep : ∀ y : Nat, crcStep y = y >>> 8 ^^^ CRC32_SLICE1_TABLE (y &&& 255) :=
    fun _ => rfl
  have hs16 : crc >>> 8 >>> 8 = crc >>> 16 := by rw [← Nat.shiftRight_add]
  have hs24 : crc >>> 16 >>> 8 = crc >>> 24 := by rw [← Nat.shiftRight_add]
  have hs32 : crc >>> 24 >>> 8 = 0 := by
    rw [← Nat.shiftRight_add, Nat.shiftRight_eq_div_pow]
    omega
  have d1 : crcStep^[1] crc = crc >>> 8 ^^^ CRC32_SLICE1_TABLE (crc &&& 255) := hstep crc
  have d2 : crcStep^[2] crc =
      crc >>> 16 ^^^ (CRC32_SLICE1_TABLE (crc >>> 8 &&& 255) ^^^
        crcStep^[1] (CRC32_SLICE1_TABLE (crc &&& 255))) := by
    rw [← crcStep_c1, d1, crcStep_linear, hstep (crc >>> 8), hs16, Nat.xor_assoc, crcStep_c0]
  have d3 : crcStep^[3] crc =
      crc >>> 24 ^^^ (CRC32_SLICE1_TABLE (crc >>> 16 &&& 255) ^^^
        (crcStep^[1] (CRC32_SLICE1_TABLE (crc >>> 8 &&& 255)) ^^^
          crcStep^[2] (CRC32_SLICE1_TABLE (crc &&& 255)))) := by
    rw [← crcStep_c2, d2, crcStep_linear, crcStep_linear, hstep (crc >>> 16), hs24,
      crcStep_c1, Nat.xor_assoc]
    rw [crcStep_c0 (CRC32_SLICE1_TABLE (crc >>> 8 &&& 255))]
  have d4 : crcStep^[4] crc =
      CRC32_SLICE1_TABLE (crc >>> 24 &&& 255) ^^^
        (crcStep^[1] (CRC32_SLICE1_TABLE (crc >>> 16 &&& 255)) ^^^
          (crcStep^[2] (CRC32_SLICE1_TABLE (crc >>> 8 &&& 255)) ^^^
            crcStep^[3] (CRC32_SLICE1_TABLE (crc &&& 255)))) := by
    rw [← crcStep_c3, d3, crcStep_linear, crcStep_linear, crcStep_linear,
      hstep (crc >>> 24), hs32, Nat.zero_xor, crcStep_c1, crcStep_c2]
    rw [crcStep_c0 (CRC32_SLICE1_TABLE (crc >>> 16 &&& 255))]
  rw [d4]
  simp [Nat.xor_assoc]

theorem crcStep8_decomp (crc : Nat) (h : crc < 2 ^ 32) :
    crcStep^[8] crc =
      crcStep^[4] (CRC32_SLICE1_TABLE (crc >>> 24 &&& 255)) ^^^
        crcStep^[5] (CRC32_SLICE1_TABLE (crc >>> 16 &&& 255)) ^^^
        crcStep^[6] (CRC32_SLICE1_TABLE (crc >>> 8 &&& 255)) ^^^
        crcStep^[7] (CRC32_SLICE1_TABLE (crc &&& 255)) := by
  have e : crcStep^[8] crc = crcStep^[4] (crcStep^[4] crc) :=
    Function.iterate_add_apply crcStep 4 4 crc
  rw [e, crcStep4_decomp crc h, crcStep_iterate_linear, crcStep_iterate_linear,
    crcStep_iterate_linear, crcStep_a41, crcStep_a42, crcStep_a43]

/-! ### The slice-by-8 table lookups -/

theorem table8_entry (k j : Nat) (hj : j < 256) :
    CRC32_SLICE8_TABLE (k * 256 + j) = crcStep^[k] (CRC32_SLICE1_TABLE j) := by
  unfold CRC32_SLICE8_TABLE
  rw [show (k * 256 + j) / 256 = k from by omega,
    show (k * 256 + j) % 256 = j from by omega]

theorem table8_entry0 (j : Nat) (hj : j < 256) :
    CRC32_SLICE8_TABLE j = CRC32_SLICE1_TABLE j := by
  unfold CRC32_SLICE8_TABLE
  rw [Nat.div_eq_of_lt hj, Nat.mod_eq_of_lt hj, Function.iterate_zero_apply]

theorem table8_lt (idx : Nat) : CRC32_SLICE8_TABLE idx < 2 ^ 32 := by
  unfold CRC32_SLICE8_TABLE
  exact crcStep_iterate_lt _ _ (table1_lt _ (by omega))

/-- The slice-by-8 chunk update equals eight slice-by-1 steps. -/
theorem crc_chunk (crc v1 v2 b0 b1 b2 b3 b4 b5 b6 b7 : Nat)
    (hc : crc < 2 ^ 32)
    (h0 : b0 < 256) (h1 : b1 < 256) (h2 : b2 < 256) (h3 : b3 < 256)
    (h4 : b4 < 256) (h5 : b5 < 256) (h6 : b6 < 256) (h7 : b7 < 256)
    (hv1 : v1 = b0 + b1 * 256 + b2 * 65536 + b3 * 16777216)
    (hv2 : v2 = b4 + b5 * 256 + b6 * 65536 + b7 * 16777216) :
    CRC32_SLICE8_TABLE (0x700 + ((crc ^^^ v1) >>> 0 &&& 0xFF)) ^^^
      CRC32_SLICE8_TABLE (0x600 + ((crc ^^^ v1) >>> 8 &&& 0xFF)) ^^^
      CRC32_SLICE8_TABLE (0x500 + ((crc ^^^ v1) >>> 16 &&& 0xFF)) ^^^
      CRC32_SLICE8_TABLE (0x400 + ((crc ^^^ v1) >>> 24 &&& 0xFF)) ^^^
      CRC32_SLICE8_TABLE (0x300 + (v2 >>> 0 &&& 0xFF)) ^^^
      CRC32_SLICE8_TABLE (0x200 + (v2 >>> 8 &&& 0xFF)) ^^^
      CRC32_SLICE8_TABLE (0x100 + (v2 >>> 16 &&& 0xFF)) ^^^
      CRC32_SLICE8_TABLE (0x000 + (v2 >>> 24 &&& 0xFF)) =
    crc32_slice1_step (crc32_slice1_step (crc32_slice1_step (crc32_slice1_step
      (crc32_slice1_step (crc32_slice1_step (crc32_slice1_step (crc32_slice1_step
        crc b0) b1) b2) b3) b4) b5) b6) b7 := by
  -- index bytes of the combined word
  have i0 : (crc ^^^ v1) >>> 0 &&& 255 = (crc &&& 255) ^^^ b0 := by
    rw [Nat.shiftRight_zero, Nat.and_xor_distrib_right]
    congr 1
    rw [nat_and_255, hv1]
    omega
  have i1 : (crc ^^^ v1) >>> 8 &&& 255 = (crc >>> 8 &&& 255) ^^^ b1 := by
    rw [nat_xor_shiftRight, Nat.and_xor_distrib_right]
    congr 1
    rw [Nat.shiftRight_eq_div_pow, nat_and_255, hv1]
    omega
  have i2 : (crc ^^^ v1) >>> 16 &&& 255 = (crc >>> 16 &&& 255) ^^^ b2 := by
    rw [nat_xor_shiftRight, Nat.and_xor_distrib_right]
    congr 1
    rw [Nat.shiftRight_eq_div_pow, nat_and_255, hv1]
    omega
  have i3 : (crc ^^^ v1) >>> 24 &&& 255 = (crc >>> 24 &&& 255) ^^^ b3 := by
    rw [nat_xor_shiftRight, Nat.and_xor_distrib_right]
    congr 1
    rw [Nat.shiftRight_eq_div_pow, nat_and_255, hv1]
    omega
  have j0 : v2 >>> 0 &&& 255 = b4 := by
    rw [Nat.shiftRight_zero, nat_and_255, hv2]
    omega
  have j1 : v2 >>> 8 &&& 255 = b5 := by
    rw [Nat.shiftRight_eq_div_pow, nat_and_255, hv2]
    omega
  have j2 : v2 >>> 16 &&& 255 = b6 := by
    rw [Nat.shiftRight_eq_div_pow, nat_and_255, hv2]
    omega
  have j3 : v2 >>> 24 &&& 255 = b7 := by
    rw [Nat.shiftRight_eq_div_pow, nat_and_255, hv2]
    omega
  -- the xored index bytes stay below 256
  have x0lt : (crc &&& 255) ^^^ b0 < 256 := by
    have hh := @Nat.xor_lt_two_pow (crc &&& 255) b0 8 (by rw [nat_and_255]; omega) (by omega)
    omega
  have x1lt : (crc >>> 8 &&& 255) ^^^ b1 < 256 := by
    have hh := @Nat.xor_lt_two_pow (crc >>> 8 &&& 255) b1 8 (by rw [nat_and_255]; omega)
      (by omega)
    omega
  have x2lt : (crc >>> 16 &&& 255) ^^^ b2 < 256 := by
    have hh := @Nat.xor_lt_two_pow (crc >>> 16 &&& 255) b2 8 (by rw [nat_and_255]; omega)
      (by omega)
    omega
  have x3lt : (crc >>> 24 &&& 255) ^^^ b3 < 256 := by
    have hh := @Nat.xor_lt_two_pow (crc >>> 24 &&& 255) b3 8 (by rw [nat_and_255]; omega)
      (by omega)
    omega
  -- resolve the eight table lookups
  have t7 : CRC32_SLICE8_TABLE (0x700 + ((crc &&& 255) ^^^ b0)) =
      crcStep^[7] (CRC32_SLICE1_TABLE ((crc &&& 255) ^^^ b0)) := by
    rw [show (0x700 : Nat) + ((crc &&& 255) ^^^ b0) = 7 * 256 + ((crc &&& 255) ^^^ b0)
      from by norm_num]
    exact table8_entry 7 _ x0lt
  have t6 : CRC32_SLICE8_TABLE (0x600 + ((crc >>> 8 &&& 255) ^^^ b1)) =
      crcStep^[6] (CRC32_SLICE1_TABLE ((crc >>> 8 &&& 255) ^^^ b1)) := by
    rw [show (0x600 : Nat) + ((crc >>> 8 &&& 255) ^^^ b1) = 6 * 256 + ((crc >>> 8 &&& 255) ^^^ b1)
      from by norm_num]
    exact table8_entry 6 _ x1lt
  have t5 : CRC32_SLICE8_TABLE (0x500 + ((crc >>> 16 &&& 255) ^^^ b2)) =
      crcStep^[5] (CRC32_SLICE1_TABLE ((crc >>> 16 &&& 255) ^^^ b2)) := by
    rw [show (0x500 : Nat) + ((crc >>> 16 &&& 255) ^^^ b2)
        = 5 * 256 + ((crc >>> 16 &&& 255) ^^^ b2) from by norm_num]
    exact table8_entry 5 _ x2lt
  have t4 : CRC32_SLICE8_TABLE (0x400 + ((crc >>> 24 &&& 255) ^^^ b3)) =
      crcStep^[4] (CRC32_SLICE1_TABLE ((crc >>> 24 &&& 255) ^^^ b3)) := by
    rw [show (0x400 : Nat) + ((crc >>> 24 &&& 255) ^^^ b3)
        = 4 * 256 + ((crc >>> 24 &&& 255) ^^^ b3) from by norm_num]
    exact table8_entry 4 _ x3lt
  have t3 : CRC32_SLICE8_TABLE (0x300 + b4) = crcStep^[3] (CRC32_SLICE1_TABLE b4) := by
    rw [show (0x300 : Nat) + b4 = 3 * 256 + b4 from by norm_num]
    exact table8_entry 3 _ h4
  have t2 : CRC32_SLICE8_TABLE (0x200 + b5) = crcStep^[2] (CRC32_SLICE1_TABLE b5) := by
    rw [show (0x200 : Nat) + b5 = 2 * 256 + b5 from by norm_num]
    exact table8_entry 2 _ h5
  have t1 : CRC32_SLICE8_TABLE (0x100 + b6) = crcStep^[1] (CRC32_SLICE1_TABLE b6) := by
    rw [show (0x100 : Nat) + b6 = 1 * 256 + b6 from by norm_num]
    exact table8_entry 1 _ h6
  have t0 : CRC32_SLICE8_TABLE (0x000 + b7) = CRC32_SLICE1_TABLE b7 := by
    rw [Nat.zero_add]
    exact table8_entry0 b7 h7
  rw [i0, i1, i2, i3, j0, j1, j2, j3, t7, t6, t5, t4, t3, t2, t1, t0]
  rw [table1_linear, table1_linear, table1_linear, table1_linear]
  simp only [crcStep_iterate_linear]
  -- normalise the eight slice-by-1 steps on the right
  have f1 : crc32_slice1_step crc b0 = crcStep^[1] crc ^^^ crcStep^[1] b0 := by
    rw [crc32_slice1_step_eq _ _ h0, crcStep_linear, crcStep_c0 crc, crcStep_c0 b0]
  have f2 : crc32_slice1_step (crc32_slice1_step crc b0) b1 =
      crcStep^[2] crc ^^^ (crcStep^[2] b0 ^^^ crcStep^[1] b1) := by
    rw [crc32_slice1_step_eq _ _ h1, f1]
    simp only [crcStep_linear]
    simp only [crcStep_c1]
    simp only [crcStep_c0]
    simp [Nat.xor_assoc]
  have f3 : crc32_slice1_step (crc32_slice1_step (crc32_slice1_step crc b0) b1) b2 =
      crcStep^[3] crc ^^^ (crcStep^[3] b0 ^^^ (crcStep^[2] b1 ^^^ crcStep^[1] b2)) := by
    rw [crc32_slice1_step_eq _ _ h2, f2]
    simp only [crcStep_linear]
    simp only [crcStep_c2, crcStep_c1]
    simp only [crcStep_c0]
    simp [Nat.xor_assoc]
  have f4 : crc32_slice1_step (crc32_slice1_step (crc32_slice1_step
      (crc32_slice1_step crc b0) b1) b2) b3 =
      crcStep^[4] crc ^^^ (crcStep^[4] b0 ^^^ (crcStep^[3] b1 ^^^
        (crcStep^[2] b2 ^^^ crcStep^[1] b3))) := by
    rw [crc32_slice1_step_eq _ _ h3, f3]
    simp only [crcStep_linear]
    simp only [crcStep_c3, crcStep_c2, crcStep_c1]
    simp only [crcStep_c0]
    simp [Nat.xor_assoc]
  have f5 : crc32_slice1_step (crc32_slice1_step (crc32_slice1_step (crc32_slice1_step
      (crc32_slice1_step crc b0) b1) b2) b3) b4 =
      crcStep^[5] crc ^^^ (crcStep^[5] b0 ^^^ (crcStep^[4] b1 ^^^ (crcStep^[3] b2 ^^^
        (crcStep^[2] b3 ^^^ crcStep^[1] b4)))) := by
    rw [crc32_slice1_step_eq _ _ h4, f4]
    simp only [crcStep_linear]
    simp only [crcStep_c4, crcStep_c3, crcStep_c2, crcStep_c1]
    simp only [crcStep_c0]
    simp [Nat.xor_assoc]
  have f6 : crc32_slice1_step (crc32_slice1_step (crc32_slice1_step (crc32_slice1_step
      (crc32_slice1_step (crc32_slice1_step crc b0) b1) b2) b3) b4) b5 =
      crcStep^[6] crc ^^^ (crcStep^[6] b0 ^^^ (crcStep^[5] b1 ^^^ (crcStep^[4] b2 ^^^
        (crcStep^[3] b3 ^^^ (crcStep^[2] b4 ^^^ crcStep^[1] b5))))) := by
    rw [crc32_slice1_step_eq _ _ h5, f5]
    simp only [crcStep_linear]
    simp only [crcStep_c5, crcStep_c4, crcStep_c3, crcStep_c2, crcStep_c1]
    simp only [crcStep_c0]
    simp [Nat.xor_assoc]
  have f7 : crc32_slice1_step (crc32_slice1_step (crc32_slice1_step (crc32_slice1_step
      (crc32_slice1_step (crc32_slice1_step (crc32_slice1_step crc b0) b1) b2) b3) b4)
        b5) b6 =
      crcStep^[7] crc ^^^ (crcStep^[7] b0 ^^^ (crcStep^[6] b1 ^^^ (crcStep^[5] b2 ^^^
        (crcStep^[4] b3 ^^^ (crcStep^[3] b4 ^^^ (crcStep^[2] b5 ^^^
          crcStep^[1] b6)))))) := by
    rw [crc32_slice1_step_eq _ _ h6, f6]
    simp only [crcStep_linear]
    simp only [crcStep_c6, crcStep_c5, crcStep_c4, crcStep_c3, crcStep_c2, crcStep_c1]
    simp only [crcStep_c0]
    simp [Nat.xor_assoc]
  have f8 : crc32_slice1_step (crc32_slice1_step (crc32_slice1_step (crc32_slice1_step
      (crc32_slice1_step (crc32_slice1_step (crc32_slice1_step (crc32_slice1_step
        crc b0) b1) b2) b3) b4) b5) b6) b7 =
      crcStep^[8] crc ^^^ (crcStep^[8] b0 ^^^ (crcStep^[7] b1 ^^^ (crcStep^[6] b2 ^^^
        (crcStep^[5] b3 ^^^ (crcStep^[4] b4 ^^^ (crcStep^[3] b5 ^^^ (crcStep^[2] b6 ^^^
          crcStep^[1] b7))))))) := by
    rw [crc32_slice1_step_eq _ _ h7, f7]
    simp only [crcStep_linear]
    simp only [crcStep_c7, crcStep_c6, crcStep_c5, crcStep_c4, crcStep_c3, crcStep_c2,
      crcStep_c1]
    simp only [crcStep_c0]
    simp [Nat.xor_assoc]
  rw [f8, crcStep8_decomp crc hc]
  -- fold each byte's iterate through the slice-by-1 table
  have g0 : crcStep^[8] b0 = crcStep^[7] (CRC32_SLICE1_TABLE b0) := by
    rw [show (8 : Nat) = 7 + 1 from rfl, Function.iterate_add_apply,
      Function.iterate_one, crcStep_byte b0 h0]
  have g1 : crcStep^[7] b1 = crcStep^[6] (CRC32_SLICE1_TABLE b1) := by
    rw [show (7 : Nat) = 6 + 1 from rfl, Function.iterate_add_apply,
      Function.iterate_one, crcStep_byte b1 h1]
  have g2 : crcStep^[6] b2 = crcStep^[5] (CRC32_SLICE1_TABLE b2) := by
    rw [show (6 : Nat) = 5 + 1 from rfl, Function.iterate_add_apply,
      Function.iterate_one, crcStep_byte b2 h2]
  have g3 : crcStep^[5] b3 = crcStep^[4] (CRC32_SLICE1_TABLE b3) := by
    rw [show (5 : Nat) = 4 + 1 from rfl, Function.iterate_add_apply,
      Function.iterate_one, crcStep_byte b3 h3]
  have g4 : crcStep^[4] b4 = crcStep^[3] (CRC32_SLICE1_TABLE b4) := by
    rw [show (4 : Nat) = 3 + 1 from rfl, Function.iterate_add_apply,
      Function.iterate_one, crcStep_byte b4 h4]
  have g5 : crcStep^[3] b5 = crcStep^[2] (CRC32_SLICE1_TABLE b5) := by
    rw [show (3 : Nat) = 2 + 1 from rfl, Function.iterate_add_apply,
      Function.iterate_one, crcStep_byte b5 h5]
  have g6 : crcStep^[2] b6 = crcStep^[1] (CRC32_SLICE1_TABLE b6) := by
    rw [show (2 : Nat) = 1 + 1 from rfl, Function.iterate_add_apply,
      Function.iterate_one, crcStep_byte b6 h6]
  have g7 : crcStep^[1] b7 = CRC32_SLICE1_TABLE b7 := by
    rw [Function.iterate_one, crcStep_byte b7 h7]
  rw [g0, g1, g2, g3, g4, g5, g6, g7]
  ac_rfl

/-- The slice-by-8 implementation agrees with the slice-by-1 loop. -/
theorem crc32_slice8_eq_slice1 :
    ∀ (data : List Nat) (crc : Nat), (∀ b ∈ data, b < 256) → crc < 2 ^ 32 →
      crc32_slice8 data crc = _crc32_slice1 data crc := by
  have main : ∀ (n : Nat) (data : List Nat), data.length ≤ n → ∀ (crc : Nat),
      (∀ b ∈ data, b < 256) → crc < 2 ^ 32 →
      crc32_slice8 data crc = _crc32_slice1 data crc := by
    intro n
    induction n with
    | zero =>
      intro data hlen crc _ _
      have hdat : data = [] := List.eq_nil_of_length_eq_zero (Nat.le_zero.mp hlen)
      subst hdat
      rfl
    | succ n ih =>
      intro data hlen crc hdata hcrc
      rcases data with _ | ⟨b0, _ | ⟨b1, _ | ⟨b2, _ | ⟨b3, _ | ⟨b4, _ | ⟨b5, _ |
        ⟨b6, _ | ⟨b7, rest⟩⟩⟩⟩⟩⟩⟩⟩
      · rfl
      · rfl
      · rfl
      · rfl
      · rfl
      · rfl
      · rfl
      · rfl
      · have h0 : b0 < 256 := hdata b0 (by simp)
        have h1 : b1 < 256 := hdata b1 (by simp)
        have h2 : b2 < 256 := hdata b2 (by simp)
        have h3 : b3 < 256 := hdata b3 (by simp)
        have h4 : b4 < 256 := hdata b4 (by simp)
        have h5 : b5 < 256 := hdata b5 (by simp)
        have h6 : b6 < 256 := hdata b6 (by simp)
        have h7 : b7 < 256 := hdata b7 (by simp)
        have hrest : ∀ b ∈ rest, b < 256 := fun b hb => hdata b (by simp [hb])
        have hlen' : rest.length ≤ n := by
          simp only [List.length_cons] at hlen
          omega
        have hv1 : (b0 + b1 * 2 ^ 8 + b2 * 2 ^ 16 + b3 * 2 ^ 24 + b4 * 2 ^ 32 +
            b5 * 2 ^ 40 + b6 * 2 ^ 48 + b7 * 2 ^ 56) &&& 0xFFFFFFFF =
            b0 + b1 * 256 + b2 * 65536 + b3 * 16777216 := by
          rw [nat_and_u32max]
          omega
        have hv2 : (b0 + b1 * 2 ^ 8 + b2 * 2 ^ 16 + b3 * 2 ^ 24 + b4 * 2 ^ 32 +
            b5 * 2 ^ 40 + b6 * 2 ^ 48 + b7 * 2 ^ 56) >>> 32 =
            b4 + b5 * 256 + b6 * 65536 + b7 * 16777216 := by
          rw [Nat.shiftRight_eq_div_pow]
          omega
        have s1 := crc32_slice1_step_lt crc b0 hcrc h0
        have s2 := crc32_slice1_step_lt _ b1 s1 h1
        have s3 := crc32_slice1_step_lt _ b2 s2 h2
        have s4 := crc32_slice1_step_lt _ b3 s3 h3
        have s5 := crc32_slice1_step_lt _ b4 s4 h4
        have s6 := crc32_slice1_step_lt _ b5 s5 h5
        have s7 := crc32_slice1_step_lt _ b6 s6 h6
        have s8 := crc32_slice1_step_lt _ b7 s7 h7
        simp only [crc32_slice8]
        rw [hv1, hv2]
        rw [crc_chunk crc (b0 + b1 * 256 + b2 * 65536 + b3 * 16777216)
          (b4 + b5 * 256 + b6 * 65536 + b7 * 16777216) b0 b1 b2 b3 b4 b5 b6 b7
          hcrc h0 h1 h2 h3 h4 h5 h6 h7 rfl rfl]
        rw [ih rest hlen' _ hrest s8]
        simp [_crc32_slice1]
  intro data crc hdata hcrc
  exact main data.length data (Nat.le_refl _) crc hdata hcrc

/-! ## Claim C7: CRC composability -/

/-- C7: for all byte sequences `X`, `Y` and every 32-bit seed `s`,
`crc32_slice8 (X ++ Y) s = crc32_slice8 Y (crc32_slice8 X s)`, with no
alignment condition on the length of `X`. -/
theorem C7_crc_composability (X Y : List Nat) (s : Nat)
    (hX : ∀ b ∈ X, b < 256) (hY : ∀ b ∈ Y, b < 256) (hs : s < 2 ^ 32) :
    crc32_slice8 (X ++ Y) s = crc32_slice8 Y (crc32_slice8 X s) := by
  have hXY : ∀ b ∈ X ++ Y, b < 256 := by
    intro b hb
    rcases List.mem_append.mp hb with h | h
    · exact hX b h
    · exact hY b h
  rw [crc32_slice8_eq_slice1 X s hX hs,
    crc32_slice8_eq_slice1 Y _ hY (_crc32_slice1_lt X s hX hs),
    crc32_slice8_eq_slice1 (X ++ Y) s hXY hs]
  simp [_crc32_slice1, List.foldl_append]

/-- Witness for C7: a five-byte `X` (so the chunking of `X ++ Y` does not
split at the `X`/`Y` boundary) and concrete seed. -/
theorem C7_crc_composability_witness :
    crc32_slice8 ([1, 2, 3, 4, 5] ++ [6, 7, 8, 9, 10, 11]) 3735928559 =
      crc32_slice8 [6, 7, 8, 9, 10, 11] (crc32_slice8 [1, 2, 3, 4, 5] 3735928559) :=
  C7_crc_composability [1, 2, 3, 4, 5] [6, 7, 8, 9, 10, 11] 3735928559
    (by decide) (by decide) (by decide)

/-! ## Claim C8: CRC cross-check -/

/-- C8: the slice-by-8 implementation and the slice-by-1 implementation
return the same value on every byte sequence and every 32-bit seed. -/
theorem C8_crc_cross_check (data : List Nat) (crc : Nat)
    (hdata : ∀ b ∈ data, b < 256) (hcrc : crc < 2 ^ 32) :
    crc32_slice8 data crc = _crc32_slice1 data crc :=
  crc32_slice8_eq_slice1 data crc hdata hcrc

/-- Witness for C8: a nine-byte input (one aligned chunk plus remainder). -/
theorem C8_crc_cross_check_witness :
    crc32_slice8 [1, 2, 3, 4, 5, 6, 7, 8, 9] 123456789 =
      _crc32_slice1 [1, 2, 3, 4, 5, 6, 7, 8, 9] 123456789 :=
  C8_crc_cross_check [1, 2, 3, 4, 5, 6, 7, 8, 9] 123456789 (by decide) (by decide)

/-! ## QOI encoder (`zune-qoi/src/encoder.rs`)

Machine `u8` arithmetic is explicit: `wsub`/`wadd`/`wshl` wrap at 256 exactly
where the Rust source uses `wrapping_sub`/`wrapping_add`/`u8` shifts. -/

/-- Colorspaces relevant to the QOI encoder (from `zune-core`); `Luma`
stands in for the variants other than RGB/RGBA, which `encode_headers`
rejects. -/
inductive ColorSpace
  | RGB
  | RGBA
  | Luma
deriving DecidableEq

/-- `ColorSpace::num_components` (from `zune-core`). -/
def ColorSpace.num_components : ColorSpace → Nat
  | .RGB => 3
  | .RGBA => 4
  | .Luma => 1

/-- `ColorCharacteristics` (from `zune-core`): affects one header byte. -/
inductive ColorCharacteristics
  | sRGB
  | Linear
deriving DecidableEq

/-- `QoiEncodeErrors`. -/
inductive QoiEncodeErrors
  | Generic (msg : String)
  | TooLargeDimensions (dim : Nat)
  | UnsupportedColorspace (c : ColorSpace)
deriving DecidableEq

/-- Constants from `zune-qoi` (`constants.rs` is not under `src/`; values
as given in the spec, §4.3.2/§4.3.5: 14-byte header, "qoif" magic, opcode
tags, 8 padding bytes). -/
def QOI_HEADER_SIZE : Nat := 14

def QOI_MAGIC : Nat := 0x716f6966

def QOI_OP_INDEX : Nat := 0x00

def QOI_OP_DIFF : Nat := 0x40

def QOI_OP_LUMA : Nat := 0x80

def QOI_OP_RUN : Nat := 0xC0

def QOI_OP_RGB : Nat := 0xFE

def QOI_OP_RGBA : Nat := 0xFF

def QOI_PADDING : Nat := 8

/-- Modelled from the spec (§4.1): the `ZByteWriter` of `zune-core` (not
under `src/`).  The written bytes accumulate in order, the cursor equals
the number of bytes written, and `has n` checks `cursor + n ≤ buffer_len`;
per the spec the caller verifies `has` before each write, so a write always
appends and advances the cursor by the written width. -/
def writer_has (buflen : Nat) (out : List Nat) (n : Nat) : Bool :=
  decide (out.length + n ≤ buflen)

def write_u8 (out : List Nat) (v : Nat) : List Nat := out ++ [v]

def u32_be_bytes (v : Nat) : List Nat :=
  [v >>> 24 &&& 0xFF, v >>> 16 &&& 0xFF, v >>> 8 &&& 0xFF, v &&& 0xFF]

def write_u32_be (out : List Nat) (v : Nat) : List Nat := out ++ u32_be_bytes v

def u64_be_bytes (v : Nat) : List Nat :=
  [v >>> 56 &&& 0xFF, v >>> 48 &&& 0xFF, v >>> 40 &&& 0xFF, v >>> 32 &&& 0xFF,
    v >>> 24 &&& 0xFF, v >>> 16 &&& 0xFF, v >>> 8 &&& 0xFF, v &&& 0xFF]

def write_u64_be (out : List Nat) (v : Nat) : List Nat := out ++ u64_be_bytes v

def write_all (out bytes : List Nat) : List Nat := out ++ bytes

/-- `u8::wrapping_sub`. -/
def wsub (a b : Nat) : Nat := (a + 256 - b % 256) % 256

/-- `u8::wrapping_add`. -/
def wadd (a b : Nat) : Nat := (a + b) % 256

/-- `u8` shift-left (truncates at 8 bits, as Rust `u8 << k`). -/
def wshl (a k : Nat) : Nat := (a <<< k) % 256

/-- An RGBA quadruple (`[u8; 4]`). -/
structure Pix where
  r : Nat
  g : Nat
  b : Nat
  a : Nat
deriving DecidableEq

/-- The QOI hash slot of a pixel: `(r·3 + g·5 + b·7 + a·11) % 64`. -/
def index_position (p : Pix) : Nat :=
  (p.r * 3 + p.g * 5 + p.b * 7 + p.a * 11) % 64

/-- The per-call state of the pixel loop of `encode_into`. -/
structure EncState where
  out : List Nat
  index : List Pix
  px : Pix
  px_prev : Pix
  run : Nat
deriving DecidableEq

/-- `QoiEncoder::max_size`. -/
def max_size (width height : Nat) (cs : ColorSpace) : Nat :=
  width * height * (cs.num_components + 1) + QOI_HEADER_SIZE + QOI_PADDING

/-- `QoiEncoder::encode_headers`, returning the bytes written so far. -/
def encode_headers (buflen width height : Nat) (cs : ColorSpace)
    (cc : ColorCharacteristics) (pixel_data : List Nat) :
    Except QoiEncodeErrors (List Nat) :=
  let expected_len := width * height * cs.num_components
  if pixel_data.length ≠ expected_len then
    .error (.Generic "Expected length doesn't match pixels length")
  else if writer_has buflen [] QOI_HEADER_SIZE then
    let out := write_all [] (u32_be_bytes QOI_MAGIC)
    if width > 0xFFFFFFFF then
      .error (.TooLargeDimensions width)
    else if height > 0xFFFFFFFF then
      .error (.TooLargeDimensions height)
    else
      let out := write_u32_be out width
      let out := write_u32_be out height
      let xtic : Nat := if cc = .Linear then 1 else 0
      match cs with
      | .RGB => .ok (write_u8 (write_u8 out 3) xtic)
      | .RGBA => .ok (write_u8 (write_u8 out 4) xtic)
      | .Luma => .error (.UnsupportedColorspace cs)
  else
    .error (.Generic "Cannot allocate internal space for headers")

/-- `px[0..channel_count].copy_from_slice(pix_chunk)`: the loop only runs
with 3 or 4 channels; with 3 the alpha component is left untouched. -/
def copy_px (channel_count : Nat) (chunk : List Nat) (px : Pix) : Pix :=
  if channel_count = 4 then
    ⟨chunk.getD 0 0, chunk.getD 1 0, chunk.getD 2 0, chunk.getD 3 0⟩
  else
    ⟨chunk.getD 0 0, chunk.getD 1 0, chunk.getD 2 0, px.a⟩

/-- One iteration of the pixel loop of `encode_into`. -/
def encode_px (buflen channel_count : Nat) (chunk : List Nat) (st : EncState) :
    Except QoiEncodeErrors EncState :=
  let px := copy_px channel_count chunk st.px
  if !writer_has buflen st.out 5 then
    .error (.Generic "Not enough space")
  else if px = st.px_prev then
    let run := st.run + 1
    if run = 62 then
      .ok { out := write_u8 st.out (QOI_OP_RUN ||| (run - 1)), index := st.index,
            px := px, px_prev := px, run := 0 }
    else
      .ok { out := st.out, index := st.index, px := px, px_prev := px, run := run }
  else
    let out := if st.run > 0 then write_u8 st.out (QOI_OP_RUN ||| (st.run - 1)) else st.out
    let index_pos := (px.r * 3 + px.g * 5 + px.b * 7 + px.a * 11) % 64
    if st.index.getD index_pos ⟨0, 0, 0, 0⟩ = px then
      .ok { out := write_u8 out (QOI_OP_INDEX ||| index_pos), index := st.index,
            px := px, px_prev := px, run := 0 }
    else
      let index := st.index.set index_pos px
      if px.a = st.px_prev.a then
        let vr := wsub px.r st.px_prev.r
        let vg := wsub px.g st.px_prev.g
        let vb := wsub px.b st.px_prev.b
        let vg_r := wsub vr vg
        let vg_b := wsub vb vg
        if (vr < 2 ∨ vr > 253) ∧ (vg < 2 ∨ vg > 253) ∧ (vb < 2 ∨ vb > 253) then
          .ok { out := write_u8 out
                  (QOI_OP_DIFF ||| wshl (wadd vr 2) 4 ||| wshl (wadd vg 2) 2 ||| wadd vb 2),
                index := index, px := px, px_prev := px, run := 0 }
        else if (vg_r > 247 ∨ vg_r < 8) ∧ (vg > 223 ∨ vg < 32) ∧
            (vg_b > 247 ∨ vg_b < 8) then
          .ok { out := write_u8 (write_u8 out (QOI_OP_LUMA ||| wadd vg 32))
                  (wshl (wadd vg_r 8) 4 ||| wadd vg_b 8),
                index := index, px := px, px_prev := px, run := 0 }
        else
          .ok { out := write_u8 (write_u8 (write_u8 (write_u8 out QOI_OP_RGB) px.r) px.g)
                  px.b,
                index := index, px := px, px_prev := px, run := 0 }
      else
        .ok { out := write_u32_be (write_u8 out QOI_OP_RGBA)
                (px.r * 2 ^ 24 + px.g * 2 ^ 16 + px.b * 2 ^ 8 + px.a),
              index := index, px := px, px_prev := px, run := 0 }

/-- The pixel loop: `pixel_data.chunks_exact(channel_count)` yields exactly
`pixel_data.len() / channel_count` complete chunks (any remainder is
dropped); the chunk count drives the recursion and the byte list advances
`channel_count` bytes per chunk. -/
def encode_loop (buflen channel_count : Nat) :
    Nat → List Nat → EncState → Except QoiEncodeErrors EncState
  | 0, _, st => .ok st
  | k + 1, pixels, st =>
    match encode_px buflen channel_count (pixels.take channel_count) st with
    | .error e => .error e
    | .ok st' => encode_loop buflen channel_count k (pixels.drop channel_count) st'

/-- The loop state right after the headers: zeroed 64-entry index table,
running pixel and previous pixel `(0, 0, 0, 255)`, no pending run. -/
def qoi_init_state (out : List Nat) : EncState :=
  { out := out, index := List.replicate 64 ⟨0, 0, 0, 0⟩,
    px := ⟨0, 0, 0, 255⟩, px_prev := ⟨0, 0, 0, 255⟩, run := 0 }

/-- `QoiEncoder::encode_into`: header, pixel loop, final run flush, 8-byte
trailer; returns the writer position together with the written bytes. -/
def encode_into (buflen width height : Nat) (cs : ColorSpace)
    (cc : ColorCharacteristics) (pixel_data : List Nat) :
    Except QoiEncodeErrors (Nat × List Nat) :=
  match encode_headers buflen width height cs cc pixel_data with
  | .error e => .error e
  | .ok out =>
    match encode_loop buflen cs.num_components
        (pixel_data.length / cs.num_components) pixel_data (qoi_init_state out) with
    | .error e => .error e
    | .ok st =>
      let out2 := if st.run > 0 then write_u8 st.out (QOI_OP_RUN ||| (st.run - 1))
        else st.out
      let out3 := write_u64_be out2 0x01
      .ok (out3.length, out3)

/-- `QoiEncoder::encode`: allocate `max_size` bytes, `encode_into`,
truncate to the returned size. -/
def encode (width height : Nat) (cs : ColorSpace) (cc : ColorCharacteristics)
    (pixel_data : List Nat) : Except QoiEncodeErrors (List Nat) :=
  match encode_into (max_size width height cs) width height cs cc pixel_data with
  | .error e => .error e
  | .ok sized => .ok (sized.2.take sized.1)

/-! ### Header facts -/

/-- The 14 header bytes as a pure function of
`(width, height, colorspace, color characteristics)`. -/
def qoi_header_bytes (width height : Nat) (cs : ColorSpace)
    (cc : ColorCharacteristics) : List Nat :=
  u32_be_bytes QOI_MAGIC ++ u32_be_bytes width ++ u32_be_bytes height ++
    [cs.num_components, if cc = .Linear then 1 else 0]

theorem qoi_header_bytes_length (width height : Nat) (cs : ColorSpace)
    (cc : ColorCharacteristics) : (qoi_header_bytes width height cs cc).length = 14 := by
  simp [qoi_header_bytes, u32_be_bytes]

theorem encode_headers_ok {buflen width height : Nat} {cs : ColorSpace}
    {cc : ColorCharacteristics} {pixels out : List Nat}
    (hok : encode_headers buflen width height cs cc pixels = .ok out) :
    out = qoi_header_bytes width height cs cc ∧
    pixels.length = width * height * cs.num_components ∧
    width ≤ 0xFFFFFFFF ∧ height ≤ 0xFFFFFFFF ∧ 14 ≤ buflen ∧ cs ≠ .Luma := by
  simp only [encode_headers] at hok
  split_ifs at hok with hlen hhas hw hh hcc <;>
    first
    | exact Except.noConfusion hok
    | (rcases cs with _ | _ | _ <;>
        first
        | exact Except.noConfusion hok
        | (simp only [Except.ok.injEq] at hok
           subst hok
           simp only [writer_has, List.length_nil, QOI_HEADER_SIZE,
             decide_eq_true_eq] at hhas
           refine ⟨?_, by omega, by omega, by omega, by omega, by simp⟩
           simp [qoi_header_bytes, write_u8, write_u32_be, write_all, u32_be_bytes,
             ColorSpace.num_components, List.append_assoc, hcc]))

/-! ### Per-pixel step facts -/

/-- 1 when a run is pending, else 0. -/
def run_flag (run : Nat) : Nat := min run 1

theorem encode_px_spec {buflen c : Nat} {chunk : List Nat} {st st' : EncState}
    (hok : encode_px buflen c chunk st = .ok st')
    (hc : c = 3 ∨ c = 4) (hrun : st.run ≤ 61)
    (ha : c = 3 → st.px.a = st.px_prev.a) :
    st'.out.take st.out.length = st.out ∧
    st.out.length ≤ st'.out.length ∧
    st'.out.length + run_flag st'.run ≤ st.out.length + run_flag st.run + (c + 1) ∧
    st'.run ≤ 61 ∧
    st'.px_prev = st'.px ∧
    (c = 3 → st'.px.a = st.px.a) ∧
    st'.index.length = st.index.length := by
  rcases hc with rfl | rfl <;>
    · simp only [encode_px] at hok
      split_ifs at hok <;>
        first
        | exact Except.noConfusion hok
        | (simp only [Except.ok.injEq] at hok
           subst hok
           refine ⟨?_, ?_, ?_, ?_, rfl, ?_, ?_⟩ <;>
             first
             | (simp [run_flag, write_u8, write_u32_be, u32_be_bytes, write_all,
                  copy_px, List.append_assoc, List.take_left, List.length_set] <;>
                omega)
             | (intro h3
                simp [copy_px])
             | (simp [copy_px, run_flag] at *
                omega))

/-! ### Pixel-loop facts -/

theorem encode_loop_spec (buflen c : Nat) (hc : c = 3 ∨ c = 4) :
    ∀ (k : Nat) (pixels : List Nat) (st st' : EncState),
      encode_loop buflen c k pixels st = .ok st' →
      st.run ≤ 61 → (c = 3 → st.px.a = st.px_prev.a) →
      st'.out.take st.out.length = st.out ∧
      st.out.length ≤ st'.out.length ∧
      st'.out.length + run_flag st'.run ≤
        st.out.length + run_flag st.run + k * (c + 1) ∧
      st'.run ≤ 61 ∧
      st'.index.length = st.index.length := by
  intro k
  induction k with
  | zero =>
    intro pixels st st' hok h1 h2
    simp only [encode_loop, Except.ok.injEq] at hok
    subst hok
    exact ⟨List.take_length st.out, Nat.le_refl _, by omega, h1, rfl⟩
  | succ k ih =>
    intro pixels st st' hok h1 h2
    simp only [encode_loop] at hok
    rcases hpx : encode_px buflen c (pixels.take c) st with e | st1 <;> rw [hpx] at hok
    · exact Except.noConfusion hok
    · obtain ⟨p1, p2, p3, p4, p5, p6, p7⟩ := encode_px_spec hpx hc h1 h2
      obtain ⟨q1, q2, q3, q4, q5⟩ :=
        ih (pixels.drop c) st1 st' hok p4 (fun _ => by rw [p5])
      have hmul : (k + 1) * (c + 1) = k * (c + 1) + (c + 1) := by ring
      refine ⟨?_, by omega, by omega, q4, by rw [q5, p7]⟩
      calc st'.out.take st.out.length
          = (st'.out.take st1.out.length).take st.out.length := by
            rw [List.take_take, min_eq_left p2]
        _ = st1.out.take st.out.length := by rw [q1]
        _ = st.out := p1

theorem encode_px_ok (buflen c : Nat) (chunk : List Nat) (st : EncState)
    (hhas : writer_has buflen st.out 5 = true) :
    ∃ st1, encode_px buflen c chunk st = .ok st1 := by
  rcases h : encode_px buflen c chunk st with e | st1
  · exfalso
    unfold encode_px at h
    rw [hhas] at h
    simp only [Bool.not_true] at h
    split_ifs at h <;> first | exact Except.noConfusion h | simp_all
  · exact ⟨st1, rfl⟩

theorem encode_loop_ok (buflen c : Nat) (hc : c = 3 ∨ c = 4) :
    ∀ (k : Nat) (pixels : List Nat) (st : EncState),
      st.run ≤ 61 → (c = 3 → st.px.a = st.px_prev.a) →
      st.out.length + run_flag st.run + k * (c + 1) + 8 ≤ buflen →
      ∃ st', encode_loop buflen c k pixels st = .ok st' := by
  have hc4 : 4 ≤ c + 1 := by rcases hc with rfl | rfl <;> omega
  intro k
  induction k with
  | zero => intro pixels st _ _ _; exact ⟨st, rfl⟩
  | succ k ih =>
    intro pixels st h1 h2 hsp
    have hmul : (k + 1) * (c + 1) = k * (c + 1) + (c + 1) := by ring
    have hhas : writer_has buflen st.out 5 = true := by
      simp only [writer_has, decide_eq_true_eq]
      simp only [run_flag] at hsp
      omega
    obtain ⟨st1, hpx⟩ := encode_px_ok buflen c (pixels.take c) st hhas
    obtain ⟨p1, p2, p3, p4, p5, p6, p7⟩ := encode_px_spec hpx hc h1 h2
    obtain ⟨st', hloop⟩ := ih (pixels.drop c) st1 p4 (fun _ => by rw [p5]) (by omega)
    refine ⟨st', ?_⟩
    simp only [encode_loop]
    rw [hpx]
    exact hloop

/-! ## Claim C4: trailer -/

/-- C4: every successful `encode_into` (on any buffer) returns `n` equal to
the length of the written stream, and the bytes at positions
`n - 8 .. n - 1` are exactly `00 00 00 00 00 00 00 01`. -/
theorem C4_trailer {buflen width height : Nat} {cs : ColorSpace}
    {cc : ColorCharacteristics} {pixels : List Nat} {n : Nat} {out : List Nat}
    (hok : encode_into buflen width height cs cc pixels = .ok (n, out)) :
    out.length = n ∧ 8 ≤ n ∧ out.drop (n - 8) = [0, 0, 0, 0, 0, 0, 0, 1] := by
  simp only [encode_into] at hok
  rcases hh : encode_headers buflen width height cs cc pixels with e | out0 <;>
    simp only [hh] at hok
  · exact Except.noConfusion hok
  rcases hl : encode_loop buflen cs.num_components
      (pixels.length / cs.num_components) pixels (qoi_init_state out0) with e | st <;>
    simp only [hl] at hok
  · exact Except.noConfusion hok
  simp only [Except.ok.injEq, Prod.mk.injEq] at hok
  obtain ⟨hn, hout⟩ := hok
  subst hn
  subst hout
  have h8 : u64_be_bytes 0x01 = [0, 0, 0, 0, 0, 0, 0, 1] := by decide
  refine ⟨rfl, ?_, ?_⟩
  · simp [write_u64_be, u64_be_bytes]
  · have hlen : (write_u64_be (if st.run > 0 then write_u8 st.out (QOI_OP_RUN ||| (st.run - 1))
        else st.out) 0x01).length - 8 =
        (if st.run > 0 then write_u8 st.out (QOI_OP_RUN ||| (st.run - 1)) else st.out).length := by
      simp [write_u64_be, u64_be_bytes]
    rw [hlen, write_u64_be, h8, List.drop_left]

/-- Witness for C4: `encode_into` on a 1×1 black RGB image in a 26-byte
buffer. -/
theorem C4_trailer_witness :
    (113 :: 111 :: 105 :: 102 :: 0 :: 0 :: 0 :: 1 :: 0 :: 0 :: 0 :: 1 ::
        3 :: 0 :: 192 :: [0, 0, 0, 0, 0, 0, 0, 1]).length = 23 ∧ 8 ≤ 23 ∧
    (113 :: 111 :: 105 :: 102 :: 0 :: 0 :: 0 :: 1 :: 0 :: 0 :: 0 :: 1 ::
        3 :: 0 :: 192 :: [0, 0, 0, 0, 0, 0, 0, 1]).drop (23 - 8) =
      [0, 0, 0, 0, 0, 0, 0, 1] :=
  @C4_trailer 26 1 1 .RGB .sRGB [0, 0, 0] 23
    (113 :: 111 :: 105 :: 102 :: 0 :: 0 :: 0 :: 1 :: 0 :: 0 :: 0 :: 1 ::
      3 :: 0 :: 192 :: [0, 0, 0, 0, 0, 0, 0, 1]) rfl

/-! ## Claim C5: header bytes -/

/-- C5: the first 14 bytes of every successful `encode_into` output are the
magic "qoif", width and height as big-endian `u32`, the channels byte
(3 for RGB, 4 for RGBA) and the colorspace byte (0 for sRGB, 1 for Linear) —
a pure function of `(width, height, colorspace, color_characteristics)`. -/
theorem C5_header {buflen width height : Nat} {cs : ColorSpace}
    {cc : ColorCharacteristics} {pixels : List Nat} {n : Nat} {out : List Nat}
    (hok : encode_into buflen width height cs cc pixels = .ok (n, out)) :
    out.take 14 = qoi_header_bytes width height cs cc := by
  simp only [encode_into] at hok
  rcases hh : encode_headers buflen width height cs cc pixels with e | out0 <;>
    simp only [hh] at hok
  · exact Except.noConfusion hok
  obtain ⟨ho0, hplen, hwle, hhle, hbuf, hcs⟩ := encode_headers_ok hh
  subst ho0
  have hc : cs.num_components = 3 ∨ cs.num_components = 4 := by
    rcases cs with _ | _ | _
    · exact Or.inl rfl
    · exact Or.inr rfl
    · exact absurd rfl hcs
  rcases hl : encode_loop buflen cs.num_components
      (pixels.length / cs.num_components) pixels
      (qoi_init_state (qoi_header_bytes width height cs cc)) with e | st <;>
    simp only [hl] at hok
  · exact Except.noConfusion hok
  obtain ⟨q1, q2, q3, q4, q5⟩ := encode_loop_spec buflen cs.num_components hc
    (pixels.length / cs.num_components) pixels _ st hl
    (by simp [qoi_init_state]) (by simp [qoi_init_state])
  simp only [qoi_init_state, qoi_header_bytes_length] at q1 q2
  simp only [Except.ok.injEq, Prod.mk.injEq] at hok
  obtain ⟨hn, hout⟩ := hok
  subst hout
  rw [write_u64_be, List.take_append_of_le_length (by
    split_ifs with hr
    · simp only [write_u8, List.length_append, List.length_cons, List.length_nil]
      omega
    · omega)]
  split_ifs with hr
  · rw [write_u8, List.take_append_of_le_length (by omega)]
    exact q1
  · exact q1

/-- Witness for C5: the 1×1 black RGB image. -/
theorem C5_header_witness :
    (113 :: 111 :: 105 :: 102 :: 0 :: 0 :: 0 :: 1 :: 0 :: 0 :: 0 :: 1 ::
        3 :: 0 :: 192 :: [0, 0, 0, 0, 0, 0, 0, 1]).take 14 =
      qoi_header_bytes 1 1 .RGB .sRGB :=
  @C5_header 26 1 1 .RGB .sRGB [0, 0, 0] 23
    (113 :: 111 :: 105 :: 102 :: 0 :: 0 :: 0 :: 1 :: 0 :: 0 :: 0 :: 1 ::
      3 :: 0 :: 192 :: [0, 0, 0, 0, 0, 0, 0, 1]) rfl

/-! ## Claim C2: length bound -/

/-- C2: whenever `encode_into` (and hence `encode`) succeeds returning `n`
bytes written, `n ≤ max_size`. -/
theorem C2_length_bound {buflen width height : Nat} {cs : ColorSpace}
    {cc : ColorCharacteristics} {pixels : List Nat} {n : Nat} {out : List Nat}
    (hok : encode_into buflen width height cs cc pixels = .ok (n, out)) :
    n ≤ max_size width height cs := by
  simp only [encode_into] at hok
  rcases hh : encode_headers buflen width height cs cc pixels with e | out0 <;>
    simp only [hh] at hok
  · exact Except.noConfusion hok
  obtain ⟨ho0, hplen, hwle, hhle, hbuf, hcs⟩ := encode_headers_ok hh
  subst ho0
  have hc : cs.num_components = 3 ∨ cs.num_components = 4 := by
    rcases cs with _ | _ | _
    · exact Or.inl rfl
    · exact Or.inr rfl
    · exact absurd rfl hcs
  rcases hl : encode_loop buflen cs.num_components
      (pixels.length / cs.num_components) pixels
      (qoi_init_state (qoi_header_bytes width height cs cc)) with e | st <;>
    simp only [hl] at hok
  · exact Except.noConfusion hok
  obtain ⟨q1, q2, q3, q4, q5⟩ := encode_loop_spec buflen cs.num_components hc
    (pixels.length / cs.num_components) pixels _ st hl
    (by simp [qoi_init_state]) (by simp [qoi_init_state])
  simp only [qoi_init_state, qoi_header_bytes_length] at q2 q3
  simp only [Except.ok.injEq, Prod.mk.injEq] at hok
  obtain ⟨hn, hout⟩ := hok
  subst hn
  have hout2 : (if st.run > 0 then write_u8 st.out (QOI_OP_RUN ||| (st.run - 1))
      else st.out).length ≤ st.out.length + run_flag st.run := by
    split_ifs with hr <;> simp [write_u8, run_flag] <;> omega
  have hlen8 : (write_u64_be (if st.run > 0 then
      write_u8 st.out (QOI_OP_RUN ||| (st.run - 1)) else st.out) 0x01).length =
      (if st.run > 0 then write_u8 st.out (QOI_OP_RUN ||| (st.run - 1))
        else st.out).length + 8 := by
    simp [write_u64_be, u64_be_bytes]
  rcases hc with hc3 | hc4
  · have hk : pixels.length / cs.num_components = width * height := by
      rw [hplen, hc3]
      omega
    rw [hk, hc3] at q3
    simp only [max_size, QOI_HEADER_SIZE, QOI_PADDING, hc3, run_flag] at *
    omega
  · have hk : pixels.length / cs.num_components = width * height := by
      rw [hplen, hc4]
      omega
    rw [hk, hc4] at q3
    simp only [max_size, QOI_HEADER_SIZE, QOI_PADDING, hc4, run_flag] at *
    omega

/-- Witness for C2: 1×1 black RGB image, 23 bytes written, max_size 26. -/
theorem C2_length_bound_witness : (23 : Nat) ≤ max_size 1 1 .RGB :=
  @C2_length_bound 26 1 1 .RGB .sRGB [0, 0, 0] 23
    (113 :: 111 :: 105 :: 102 :: 0 :: 0 :: 0 :: 1 :: 0 :: 0 :: 0 :: 1 ::
      3 :: 0 :: 192 :: [0, 0, 0, 0, 0, 0, 0, 1]) rfl

/-! ## Claim C10: `encode` always succeeds on well-formed input -/

/-- C10: for every input with `pixels.len = width·height·channels`,
`width, height ≤ 2^32 - 1` and colorspace RGB or RGBA, `encode` returns
`Ok`: the `max_size` buffer it allocates is large enough that no
buffer-exhaustion branch of `encode_into` is reachable. -/
theorem C10_encode_ok (width height : Nat) (cs : ColorSpace)
    (cc : ColorCharacteristics) (pixels : List Nat)
    (hlen : pixels.length = width * height * cs.num_components)
    (hw : width ≤ 0xFFFFFFFF) (hh : height ≤ 0xFFFFFFFF)
    (hcs : cs = .RGB ∨ cs = .RGBA) :
    ∃ out, encode width height cs cc pixels = .ok out := by
  have hc : cs.num_components = 3 ∨ cs.num_components = 4 := by
    rcases hcs with rfl | rfl
    · exact Or.inl rfl
    · exact Or.inr rfl
  have hhd : encode_headers (max_size width height cs) width height cs cc pixels =
      .ok (qoi_header_bytes width height cs cc) := by
    rcases hcs with rfl | rfl <;>
      · simp only [encode_headers]
        rw [if_neg (by omega), if_pos (by
            simp only [writer_has, List.length_nil, QOI_HEADER_SIZE,
              decide_eq_true_eq, max_size, QOI_PADDING]
            omega),
          if_neg (by omega), if_neg (by omega)]
        simp [qoi_header_bytes, write_u8, write_u32_be, write_all, u32_be_bytes,
          ColorSpace.num_components, List.append_assoc]
  have hbound : (qoi_init_state (qoi_header_bytes width height cs cc)).out.length +
      run_flag (qoi_init_state (qoi_header_bytes width height cs cc)).run +
      (pixels.length / cs.num_components) * (cs.num_components + 1) + 8 ≤
      max_size width height cs := by
    rcases hc with hc3 | hc4
    · have hk : pixels.length / 3 = width * height := by
        rw [hlen, hc3]
        omega
      simp only [qoi_init_state, qoi_header_bytes_length, run_flag,
        max_size, QOI_HEADER_SIZE, QOI_PADDING, hc3, hk]
      omega
    · have hk : pixels.length / 4 = width * height := by
        rw [hlen, hc4]
        omega
      simp only [qoi_init_state, qoi_header_bytes_length, run_flag,
        max_size, QOI_HEADER_SIZE, QOI_PADDING, hc4, hk]
      omega
  obtain ⟨st, hl⟩ := encode_loop_ok (max_size width height cs) cs.num_components hc
    (pixels.length / cs.num_components) pixels
    (qoi_init_state (qoi_header_bytes width height cs cc))
    (by simp [qoi_init_state]) (by simp [qoi_init_state]) hbound
  rcases he : encode width height cs cc pixels with e | o
  · exfalso
    simp only [encode, encode_into, hhd, hl] at he
    exact Except.noConfusion he
  · exact ⟨o, rfl⟩

/-- Witness for C10: a 1×1 RGB pixel. -/
theorem C10_encode_ok_witness :
    ∃ out, encode 1 1 .RGB .sRGB [7, 8, 9] = .ok out :=
  C10_encode_ok 1 1 .RGB .sRGB [7, 8, 9] (by decide) (by decide) (by decide)
    (Or.inl rfl)

/-! ## Claim C3: uniform image compresses to runs -/

/-- The run bytes emitted for `N` pixels equal to the running pixel:
`⌊N/62⌋` full RUN-62 bytes (`0xFD`) plus one final partial RUN byte. -/
def uniform_run_bytes (N : Nat) : List Nat :=
  List.replicate (N / 62) 0xFD ++
    (if N % 62 = 0 then [] else [QOI_OP_RUN ||| (N % 62 - 1)])

theorem uniform_run_bytes_length (N : Nat) (hN : 1 ≤ N) :
    (uniform_run_bytes N).length = (N + 61) / 62 := by
  simp only [uniform_run_bytes, List.length_append, List.length_replicate]
  split_ifs with h <;> simp <;> omega

theorem uniform_run_bytes_are_runs (N : Nat) :
    ∀ b ∈ uniform_run_bytes N, ∃ r, r ≤ 61 ∧ b = QOI_OP_RUN ||| r := by
  intro b hb
  simp only [uniform_run_bytes, List.mem_append] at hb
  rcases hb with hb | hb
  · have := List.eq_of_mem_replicate hb
    exact ⟨61, by omega, by rw [this]; decide⟩
  · split_ifs at hb with h
    · simp at hb
    · simp only [List.mem_singleton] at hb
      exact ⟨N % 62 - 1, by omega, hb⟩

theorem encode_loop_uniform (buflen c : Nat) (chunkZ : List Nat)
    (hlen : chunkZ.length = c)
    (hcz : copy_px c chunkZ ⟨0, 0, 0, 255⟩ = ⟨0, 0, 0, 255⟩) :
    ∀ (k : Nat) (st st' : EncState),
      st.px = ⟨0, 0, 0, 255⟩ → st.px_prev = ⟨0, 0, 0, 255⟩ → st.run ≤ 61 →
      encode_loop buflen c k (List.replicate k chunkZ).flatten st = .ok st' →
      st'.out = st.out ++ List.replicate ((st.run + k) / 62) 0xFD ∧
      st'.run = (st.run + k) % 62 ∧
      st'.px = ⟨0, 0, 0, 255⟩ ∧ st'.px_prev = ⟨0, 0, 0, 255⟩ ∧
      st'.index = st.index := by
  intro k
  induction k with
  | zero =>
    intro st st' h1 h2 h3 hok
    simp only [encode_loop, Except.ok.injEq] at hok
    subst hok
    rw [Nat.add_zero, Nat.div_eq_of_lt (by omega), Nat.mod_eq_of_lt (by omega)]
    simp [h1, h2]
  | succ k ih =>
    intro st st' h1 h2 h3 hok
    have hfl : (List.replicate (k + 1) chunkZ).flatten =
        chunkZ ++ (List.replicate k chunkZ).flatten := by
      rw [List.replicate_succ, List.flatten_cons]
    simp only [encode_loop, hfl] at hok
    have ht : (chunkZ ++ (List.replicate k chunkZ).flatten).take c = chunkZ := by
      rw [← hlen]
      exact List.take_left _ _
    have hd : (chunkZ ++ (List.replicate k chunkZ).flatten).drop c =
        (List.replicate k chunkZ).flatten := by
      rw [← hlen]
      exact List.drop_left _ _
    rw [ht, hd] at hok
    rcases hpx : encode_px buflen c chunkZ st with e | st1 <;> rw [hpx] at hok
    · exact Except.noConfusion hok
    have hok' : encode_loop buflen c k (List.replicate k chunkZ).flatten st1 =
        .ok st' := hok
    simp only [encode_px, h1, hcz, h2] at hpx
    rw [if_pos trivial] at hpx
    rcases hwh : writer_has buflen st.out 5 with _ | _ <;> rw [hwh] at hpx
    · simp at hpx
    simp only [Bool.not_true] at hpx
    rw [if_neg (by simp)] at hpx
    by_cases h62 : st.run + 1 = 62
    · -- run reached 62: one RUN byte flushed
      rw [if_pos h62] at hpx
      simp only [Except.ok.injEq] at hpx
      subst hpx
      have h61 : st.run = 61 := by omega
      obtain ⟨i1, i2, i3, i4, i5⟩ := ih _ st' rfl rfl (by simp) hok'
      simp only [write_u8] at i1 i2 i5
      refine ⟨?_, ?_, i3, i4, i5⟩
      · rw [i1]
        have hb : QOI_OP_RUN ||| (st.run + 1 - 1) = 0xFD := by
          rw [h61]
          decide
        have hcnt : (st.run + (k + 1)) / 62 = (0 + k) / 62 + 1 := by omega
        rw [hb, hcnt, List.append_assoc, List.singleton_append, ← List.replicate_succ]
      · rw [i2]
        omega
    · -- run keeps accumulating, nothing written
      rw [if_neg h62] at hpx
      simp only [Except.ok.injEq] at hpx
      subst hpx
      obtain ⟨i1, i2, i3, i4, i5⟩ := ih _ st' rfl rfl (by simp; omega) hok'
      simp only [write_u8] at i1 i2 i5
      refine ⟨?_, ?_, i3, i4, i5⟩
      · rw [i1]
        congr 2
        omega
      · rw [i2]
        congr 1
        omega

/-- C3: for `N = width·height ≥ 1` and an input whose every pixel equals the
initial running pixel `(0,0,0,255)` (all-zero RGB bytes, or RGBA bytes
`(0,0,0,255)`), a successful `encode` yields exactly the 14-byte header,
`⌈N/62⌉` RUN-opcode bytes, and the 8-byte trailer. -/
theorem C3_uniform_runs {width height : Nat} {cs : ColorSpace}
    {cc : ColorCharacteristics} {pixels out : List Nat}
    (hN : 1 ≤ width * height)
    (hpix : (cs = .RGB ∧ pixels = (List.replicate (width * height) [0, 0, 0]).flatten) ∨
      (cs = .RGBA ∧ pixels = (List.replicate (width * height) [0, 0, 0, 255]).flatten))
    (hok : encode width height cs cc pixels = .ok out) :
    out = qoi_header_bytes width height cs cc ++
        uniform_run_bytes (width * height) ++ [0, 0, 0, 0, 0, 0, 0, 1] ∧
    out.length = 14 + (width * height + 61) / 62 + 8 ∧
    (uniform_run_bytes (width * height)).length = (width * height + 61) / 62 ∧
    ∀ b ∈ uniform_run_bytes (width * height), ∃ r, r ≤ 61 ∧ b = QOI_OP_RUN ||| r := by
  simp only [encode, encode_into] at hok
  rcases hh : encode_headers (max_size width height cs) width height cs cc pixels
    with e | out0 <;> simp only [hh] at hok
  · exact Except.noConfusion hok
  obtain ⟨ho0, hplen, hwle, hhle, hbuf, hcs⟩ := encode_headers_ok hh
  subst ho0
  have hk : pixels.length / cs.num_components = width * height := by
    rcases hpix with ⟨rfl, rfl⟩ | ⟨rfl, rfl⟩ <;>
      · simp [List.length_flatten, Function.comp, ColorSpace.num_components,
          List.map_replicate]
  rcases hl : encode_loop (max_size width height cs) cs.num_components
      (pixels.length / cs.num_components) pixels
      (qoi_init_state (qoi_header_bytes width height cs cc)) with e | st <;>
    simp only [hl] at hok
  · exact Except.noConfusion hok
  rw [hk] at hl
  have hchunk : ∃ chunkZ, chunkZ.length = cs.num_components ∧
      copy_px cs.num_components chunkZ ⟨0, 0, 0, 255⟩ = ⟨0, 0, 0, 255⟩ ∧
      pixels = (List.replicate (width * height) chunkZ).flatten := by
    rcases hpix with ⟨rfl, rfl⟩ | ⟨rfl, rfl⟩
    · exact ⟨[0, 0, 0], rfl, rfl, rfl⟩
    · exact ⟨[0, 0, 0, 255], rfl, rfl, rfl⟩
  obtain ⟨chunkZ, hczlen, hcz, hpix'⟩ := hchunk
  rw [hpix'] at hl
  obtain ⟨u1, u2, u3, u4, u5⟩ := encode_loop_uniform (max_size width height cs)
    cs.num_components chunkZ hczlen hcz (width * height)
    (qoi_init_state (qoi_header_bytes width height cs cc)) st
    rfl rfl (by simp [qoi_init_state]) hl
  simp only [qoi_init_state, Nat.zero_add] at u1 u2
  simp only [Except.ok.injEq] at hok
  subst hok
  have htr : u64_be_bytes 0x01 = [0, 0, 0, 0, 0, 0, 0, 1] := by decide
  have hout3 : (if st.run > 0 then write_u8 st.out (QOI_OP_RUN ||| (st.run - 1))
        else st.out) =
      qoi_header_bytes width height cs cc ++ uniform_run_bytes (width * height) := by
    simp only [uniform_run_bytes]
    split_ifs with hr h0 h0 <;>
      first
      | (exfalso; omega)
      | (rw [u1, u2]; simp [write_u8, List.append_assoc])
      | (rw [u1]; simp)
  refine ⟨?_, ?_, uniform_run_bytes_length _ hN, uniform_run_bytes_are_runs _⟩
  · rw [List.take_length, write_u64_be, hout3, htr, List.append_assoc]
  · rw [List.take_length, write_u64_be, hout3, htr]
    simp only [List.length_append, qoi_header_bytes_length,
      uniform_run_bytes_length _ hN, List.length_cons, List.length_nil]

/-- Witness for C3: a 2×2 all-zero RGB image (one RUN byte `0xC3`). -/
theorem C3_uniform_runs_witness :
    (113 :: 111 :: 105 :: 102 :: 0 :: 0 :: 0 :: 2 :: 0 :: 0 :: 0 :: 2 ::
        3 :: 0 :: 195 :: [0, 0, 0, 0, 0, 0, 0, 1]) =
      qoi_header_bytes 2 2 .RGB .sRGB ++ uniform_run_bytes (2 * 2) ++
        [0, 0, 0, 0, 0, 0, 0, 1] ∧
    (113 :: 111 :: 105 :: 102 :: 0 :: 0 :: 0 :: 2 :: 0 :: 0 :: 0 :: 2 ::
        3 :: 0 :: 195 :: [0, 0, 0, 0, 0, 0, 0, 1]).length = 14 + (2 * 2 + 61) / 62 + 8 ∧
    (uniform_run_bytes (2 * 2)).length = (2 * 2 + 61) / 62 ∧
    ∀ b ∈ uniform_run_bytes (2 * 2), ∃ r, r ≤ 61 ∧ b = QOI_OP_RUN ||| r :=
  @C3_uniform_runs 2 2 .RGB .sRGB ((List.replicate (2 * 2) [0, 0, 0]).flatten)
    (113 :: 111 :: 105 :: 102 :: 0 :: 0 :: 0 :: 2 :: 0 :: 0 :: 0 :: 2 ::
      3 :: 0 :: 195 :: [0, 0, 0, 0, 0, 0, 0, 1])
    (by omega) (Or.inl ⟨rfl, rfl⟩) rfl

/-! ## Claim C6: index-table invariant -/

theorem list_getD_set_self {α : Type} (l : List α) (i : Nat) (v d : α)
    (h : i < l.length) : (l.set i v).getD i d = v := by
  rw [List.getD_eq_getElem?_getD, List.getElem?_set_self h]
  rfl

/-- C6 counterexample: in the (successful) encode of a 62×1 all-zero RGB
image, the 62nd pixel triggers an in-loop RUN emission (`0xFD`); right after
that emission the IndexTable slot of the pixel just encoded, `(0,0,0,255)`
at slot 53, still holds the initial `(0,0,0,0)` — RUN emissions never store
the pixel into the table, so the claim fails as stated for RUN emissions. -/
theorem C6_counterexample :
    encode_loop (max_size 62 1 .RGB) 3 62 (List.replicate 186 0)
        (qoi_init_state (qoi_header_bytes 62 1 .RGB .sRGB)) =
      .ok { out := qoi_header_bytes 62 1 .RGB .sRGB ++ [0xFD],
            index := List.replicate 64 ⟨0, 0, 0, 0⟩,
            px := ⟨0, 0, 0, 255⟩, px_prev := ⟨0, 0, 0, 255⟩, run := 0 } ∧
    (List.replicate 64 (⟨0, 0, 0, 0⟩ : Pix)).getD
        (index_position ⟨0, 0, 0, 255⟩) ⟨0, 0, 0, 0⟩ ≠ ⟨0, 0, 0, 255⟩ ∧
    encode 62 1 .RGB .sRGB (List.replicate 186 0) =
      .ok (qoi_header_bytes 62 1 .RGB .sRGB ++ [0xFD] ++ [0, 0, 0, 0, 0, 0, 0, 1]) :=
  ⟨rfl, by decide, rfl⟩

/-- C6 (amended): after every emission that is neither an INDEX hit nor a
RUN emission — i.e. after each DIFF/LUMA/RGB/RGBA emission, all of which
are preceded by the unconditional table store `index[index_pos] = px` — the
IndexTable slot `(r·3 + g·5 + b·7 + a·11) mod 64` of the pixel just encoded
equals that pixel.  (RUN emissions leave the table untouched, so the
original "including RUN emissions" reading is refuted by
the counterexample.) -/
theorem C6_index_invariant_amended {buflen c : Nat} {chunk : List Nat}
    {st st' : EncState} (hok : encode_px buflen c chunk st = .ok st')
    (hidx : st.index.length = 64)
    (hne : copy_px c chunk st.px ≠ st.px_prev)
    (hmiss : st.index.getD (index_position (copy_px c chunk st.px)) ⟨0, 0, 0, 0⟩ ≠
      copy_px c chunk st.px) :
    st'.index.getD (index_position (copy_px c chunk st.px)) ⟨0, 0, 0, 0⟩ =
      copy_px c chunk st.px := by
  have hpos : index_position (copy_px c chunk st.px) < st.index.length := by
    rw [hidx]
    exact Nat.mod_lt _ (by norm_num)
  simp only [encode_px] at hok
  split_ifs at hok <;>
    first
    | exact Except.noConfusion hok
    | (exfalso; exact hne (by assumption))
    | (exfalso; exact hmiss (by assumption))
    | (simp only [Except.ok.injEq] at hok
       subst hok
       exact list_getD_set_self st.index _ _ _ hpos)

/-- Witness for the amended C6: a fresh RGB pixel `(10,20,30)` is stored at
slot 9 by its RGB emission. -/
theorem C6_index_invariant_amended_witness :
    (({ out := [254, 10, 20, 30],
        index := (List.replicate 64 (⟨0, 0, 0, 0⟩ : Pix)).set 9 ⟨10, 20, 30, 255⟩,
        px := ⟨10, 20, 30, 255⟩, px_prev := ⟨10, 20, 30, 255⟩,
        run := 0 } : EncState)).index.getD
      (index_position (copy_px 3 [10, 20, 30] (qoi_init_state []).px)) ⟨0, 0, 0, 0⟩ =
      copy_px 3 [10, 20, 30] (qoi_init_state []).px :=
  @C6_index_invariant_amended 100 3 [10, 20, 30] (qoi_init_state [])
    { out := [254, 10, 20, 30],
      index := (List.replicate 64 (⟨0, 0, 0, 0⟩ : Pix)).set 9 ⟨10, 20, 30, 255⟩,
      px := ⟨10, 20, 30, 255⟩, px_prev := ⟨10, 20, 30, 255⟩, run := 0 }
    rfl rfl (by decide) (by decide)

/-! ## A conforming QOI decoder (modelled from the spec)

No decoder ships in the covered sources; claim C1 speaks of "a decoder
conforming to the published QOI specification", so one is modelled from the
spec (§4.3 describes the opcodes bit-exactly, §6 defers to the published
QOI specification).  The behaviour mirrors the published reference decoder:
current pixel and 64-slot index start as in the encoder, the index is
updated with the current pixel after every chunk, and a RUN chunk emits at
most the remaining pixel count. -/

/-- Modelled from the spec: decoder state — current pixel and index table. -/
structure DecState where
  px : Pix
  index : List Pix
deriving DecidableEq

/-- Modelled from the spec: after every chunk the decoder stores the current
pixel in its index table at that pixel's hash slot. -/
def dec_upd (st : DecState) (px : Pix) : DecState :=
  ⟨px, st.index.set (index_position px) px⟩

/-- Modelled from the spec: the pixel produced by a `QOI_OP_DIFF` byte. -/
def diffPix (b : Nat) (p : Pix) : Pix :=
  ⟨wadd p.r (wadd (b >>> 4 &&& 3) 254), wadd p.g (wadd (b >>> 2 &&& 3) 254),
    wadd p.b (wadd (b &&& 3) 254), p.a⟩

/-- Modelled from the spec: the pixel produced by a `QOI_OP_LUMA` pair. -/
def lumaPix (b b2 : Nat) (p : Pix) : Pix :=
  ⟨wadd p.r (wadd (wadd (b &&& 63) 224) (wadd (b2 >>> 4 &&& 15) 248)),
    wadd p.g (wadd (b &&& 63) 224),
    wadd p.b (wadd (wadd (b &&& 63) 224) (wadd (b2 &&& 15) 248)), p.a⟩

mutual

/-- Modelled from the spec: decode `cnt` pixels from the chunk stream;
returns the decoded pixels and the bytes remaining after the last chunk.
A run emits at most the remaining pixel count.  The fixed-width reads that
follow an `RGB`, `RGBA` or `LUMA` opcode are split into the three helpers
below. -/
def decode_pixels : (bytes : List Nat) → (cnt : Nat) → DecState →
    Option (List Pix × List Nat)
  | bytes, 0, _ => some ([], bytes)
  | [], _ + 1, _ => none
  | b :: rest, n + 1, st =>
    if b = 0xFE then decode_rgb rest n st
    else if b = 0xFF then decode_rgba rest n st
    else if b >>> 6 = 0 then
      (decode_pixels rest n (dec_upd st (st.index.getD (b &&& 63) ⟨0, 0, 0, 0⟩))).map
        (fun pr => (st.index.getD (b &&& 63) ⟨0, 0, 0, 0⟩ :: pr.1, pr.2))
    else if b >>> 6 = 1 then
      (decode_pixels rest n (dec_upd st (diffPix b st.px))).map
        (fun pr => (diffPix b st.px :: pr.1, pr.2))
    else if b >>> 6 = 2 then decode_luma b rest n st
    else
      (decode_pixels rest (n + 1 - min ((b &&& 63) + 1) (n + 1)) (dec_upd st st.px)).map
        (fun pr => (List.replicate (min ((b &&& 63) + 1) (n + 1)) st.px ++ pr.1, pr.2))

/-- Modelled from the spec: the three explicit bytes after `QOI_OP_RGB`. -/
def decode_rgb : (bytes : List Nat) → (cnt : Nat) → DecState →
    Option (List Pix × List Nat)
  | r :: g :: bl :: rest2, n, st =>
    (decode_pixels rest2 n (dec_upd st ⟨r, g, bl, st.px.a⟩)).map
      (fun pr => ((⟨r, g, bl, st.px.a⟩ : Pix) :: pr.1, pr.2))
  | _, _, _ => none

/-- Modelled from the spec: the four explicit bytes after `QOI_OP_RGBA`. -/
def decode_rgba : (bytes : List Nat) → (cnt : Nat) → DecState →
    Option (List Pix × List Nat)
  | r :: g :: bl :: a :: rest2, n, st =>
    (decode_pixels rest2 n (dec_upd st ⟨r, g, bl, a⟩)).map
      (fun pr => ((⟨r, g, bl, a⟩ : Pix) :: pr.1, pr.2))
  | _, _, _ => none

/-- Modelled from the spec: the second byte of a `QOI_OP_LUMA` pair. -/
def decode_luma : (b : Nat) → (bytes : List Nat) → (cnt : Nat) → DecState →
    Option (List Pix × List Nat)
  | b, b2 :: rest2, n, st =>
    (decode_pixels rest2 n (dec_upd st (lumaPix b b2 st.px))).map
      (fun pr => (lumaPix b b2 st.px :: pr.1, pr.2))
  | _, _, _, _ => none

end

/-- Modelled from the spec: full conforming decode — parse the 14-byte
header, decode `width·height` pixels, then require the 8-byte end marker.
Returns `(width, height, channels byte, colorspace byte, pixels)`. -/
def qoiDecode (bytes : List Nat) : Option (Nat × Nat × Nat × Nat × List Pix) :=
  match bytes with
  | m0 :: m1 :: m2 :: m3 :: w3 :: w2 :: w1 :: w0 :: h3 :: h2 :: h1 :: h0 ::
      ch :: csb :: rest =>
    if m0 = 0x71 ∧ m1 = 0x6f ∧ m2 = 0x69 ∧ m3 = 0x66 ∧ (ch = 3 ∨ ch = 4) ∧
        (csb = 0 ∨ csb = 1) then
      let width := w3 * 2 ^ 24 + w2 * 2 ^ 16 + w1 * 2 ^ 8 + w0
      let height := h3 * 2 ^ 24 + h2 * 2 ^ 16 + h1 * 2 ^ 8 + h0
      match decode_pixels rest (width * height)
          ⟨⟨0, 0, 0, 255⟩, List.replicate 64 ⟨0, 0, 0, 0⟩⟩ with
      | some pr =>
        if pr.2 = [0, 0, 0, 0, 0, 0, 0, 1] then
          some (width, height, ch, csb, pr.1)
        else none
      | none => none
    else none
  | _ => none

/-- The input pixel array as RGBA quadruples, `k` pixels of `c` bytes each,
with alpha 255 for 3-channel input. -/
def toRGBA (c : Nat) : Nat → List Nat → List Pix
  | 0, _ => []
  | k + 1, pixels =>
    (if c = 4 then
        (⟨pixels.getD 0 0, pixels.getD 1 0, pixels.getD 2 0, pixels.getD 3 0⟩ : Pix)
      else ⟨pixels.getD 0 0, pixels.getD 1 0, pixels.getD 2 0, 255⟩) ::
      toRGBA c k (pixels.drop c)

/-! ### Round-trip: arithmetic inverses -/

/-- The flush bytes for a pending run (empty when no run is pending). -/
def runFlush (r : Nat) : List Nat :=
  if r = 0 then [] else [QOI_OP_RUN ||| (r - 1)]

theorem wsub_lt (a b : Nat) : wsub a b < 256 := by
  simp only [wsub]; omega

theorem wadd_wsub_cancel (a b : Nat) (ha : a < 256) : wadd b (wsub a b) = a := by
  simp only [wadd, wsub]; omega

theorem diff_inv (p t : Nat) (ht : t < 256) :
    wadd p (wadd (wadd (wsub t p) 2) 254) = t := by
  simp only [wadd, wsub]; omega

theorem luma_vg_inv (v : Nat) (hv : v < 256) : wadd (wadd v 32) 224 = v := by
  simp only [wadd]; omega

theorem luma_rb_inv (p t vg : Nat) (ht : t < 256) :
    wadd p (wadd vg (wadd (wadd (wsub (wsub t p) vg) 8) 248)) = t := by
  simp only [wadd, wsub]; omega

theorem wadd2_lt (v : Nat) (hv : v < 256) (h : v < 2 ∨ v > 253) : wadd v 2 < 4 := by
  simp only [wadd]; omega

theorem wadd32_lt (v : Nat) (hv : v < 256) (h : v > 223 ∨ v < 32) :
    wadd v 32 < 64 := by
  simp only [wadd]; omega

theorem wadd8_lt (v : Nat) (hv : v < 256) (h : v > 247 ∨ v < 8) : wadd v 8 < 16 := by
  simp only [wadd]; omega

/-! ### Round-trip: opcode byte facts -/

theorem index_byte_facts : ∀ s, s < 64 →
    QOI_OP_INDEX ||| s = s ∧ ¬s = 254 ∧ ¬s = 255 ∧ s >>> 6 = 0 ∧ s &&& 63 = s := by
  decide

theorem diff_byte_facts : ∀ x, x < 4 → ∀ y, y < 4 → ∀ z, z < 4 →
    ¬QOI_OP_DIFF ||| wshl x 4 ||| wshl y 2 ||| z = 254 ∧
    ¬QOI_OP_DIFF ||| wshl x 4 ||| wshl y 2 ||| z = 255 ∧
    ¬(QOI_OP_DIFF ||| wshl x 4 ||| wshl y 2 ||| z) >>> 6 = 0 ∧
    (QOI_OP_DIFF ||| wshl x 4 ||| wshl y 2 ||| z) >>> 6 = 1 ∧
    (QOI_OP_DIFF ||| wshl x 4 ||| wshl y 2 ||| z) >>> 4 &&& 3 = x ∧
    (QOI_OP_DIFF ||| wshl x 4 ||| wshl y 2 ||| z) >>> 2 &&& 3 = y ∧
    (QOI_OP_DIFF ||| wshl x 4 ||| wshl y 2 ||| z) &&& 3 = z := by
  intro x hx y hy z hz
  interval_cases x <;> interval_cases y <;> interval_cases z <;> decide

theorem luma_b1_facts : ∀ w, w < 64 →
    ¬QOI_OP_LUMA ||| w = 254 ∧ ¬QOI_OP_LUMA ||| w = 255 ∧
    ¬(QOI_OP_LUMA ||| w) >>> 6 = 0 ∧ ¬(QOI_OP_LUMA ||| w) >>> 6 = 1 ∧
    (QOI_OP_LUMA ||| w) >>> 6 = 2 ∧ (QOI_OP_LUMA ||| w) &&& 63 = w := by
  decide

theorem luma_b2_facts : ∀ x, x < 16 → ∀ z, z < 16 →
    (wshl x 4 ||| z) >>> 4 &&& 15 = x ∧ (wshl x 4 ||| z) &&& 15 = z := by
  decide

theorem run_byte_facts : ∀ r, r < 62 →
    ¬QOI_OP_RUN ||| r = 254 ∧ ¬QOI_OP_RUN ||| r = 255 ∧
    ¬(QOI_OP_RUN ||| r) >>> 6 = 0 ∧ ¬(QOI_OP_RUN ||| r) >>> 6 = 1 ∧
    ¬(QOI_OP_RUN ||| r) >>> 6 = 2 ∧ (QOI_OP_RUN ||| r) &&& 63 = r := by
  decide

theorem u32_be_bytes_pack (r g b a : Nat) (hr : r < 256) (hg : g < 256)
    (hb : b < 256) (ha : a < 256) :
    u32_be_bytes (r * 2 ^ 24 + g * 2 ^ 16 + b * 2 ^ 8 + a) = [r, g, b, a] := by
  simp only [u32_be_bytes, Nat.shiftRight_eq_div_pow, nat_and_255, List.cons.injEq,
    and_true]
  refine ⟨by omega, by omega, by omega, by omega⟩

theorem u32_be_recompose (v : Nat) (hv : v ≤ 0xFFFFFFFF) :
    (v >>> 24 &&& 255) * 2 ^ 24 + (v >>> 16 &&& 255) * 2 ^ 16 +
      (v >>> 8 &&& 255) * 2 ^ 8 + (v &&& 255) = v := by
  simp only [Nat.shiftRight_eq_div_pow, nat_and_255]
  omega

/-! ### Round-trip: list lookup facts -/

theorem index_position_lt (p : Pix) : index_position p < 64 :=
  Nat.mod_lt _ (by omega)

theorem list_getD_set_ne {α : Type} (l : List α) (i j : Nat) (v d : α)
    (h : ¬i = j) : (l.set i v).getD j d = l.getD j d := by
  rw [List.getD_eq_getElem?_getD, List.getD_eq_getElem?_getD, List.getElem?_set_ne h]

theorem list_getD_lt (l : List Nat) (h : ∀ b ∈ l, b < 256) (i : Nat) :
    l.getD i 0 < 256 := by
  rw [List.getD_eq_getElem?_getD]
  rcases hx : l[i]? with _ | v
  · simp
  · have hv : v ∈ l := by
      have := List.getElem?_eq_some_iff.mp hx
      obtain ⟨hlt, hget⟩ := this
      exact hget ▸ List.getElem_mem hlt
    simpa using h v hv

theorem list_getD_take {α : Type} (l : List α) (c i : Nat) (d : α) (h : i < c) :
    (l.take c).getD i d = l.getD i d := by
  rw [List.getD_eq_getElem?_getD, List.getD_eq_getElem?_getD, List.getElem?_take,
    if_pos h]

/-! ### Round-trip: decoding one chunk -/

theorem decode_peel_index (B : Nat) (more : List Nat) (n : Nat) (dst : DecState)
    (h1 : ¬B = 254) (h2 : ¬B = 255) (h3 : B >>> 6 = 0) :
    decode_pixels (B :: more) (n + 1) dst =
      (decode_pixels more n
          (dec_upd dst (dst.index.getD (B &&& 63) ⟨0, 0, 0, 0⟩))).map
        (fun pr => (dst.index.getD (B &&& 63) ⟨0, 0, 0, 0⟩ :: pr.1, pr.2)) := by
  simp only [decode_pixels]
  rw [if_neg h1, if_neg h2, if_pos h3]

theorem decode_peel_diff (B : Nat) (more : List Nat) (n : Nat) (dst : DecState)
    (h1 : ¬B = 254) (h2 : ¬B = 255) (h3 : ¬B >>> 6 = 0) (h4 : B >>> 6 = 1) :
    decode_pixels (B :: more) (n + 1) dst =
      (decode_pixels more n (dec_upd dst (diffPix B dst.px))).map
        (fun pr => (diffPix B dst.px :: pr.1, pr.2)) := by
  simp only [decode_pixels]
  rw [if_neg h1, if_neg h2, if_neg h3, if_pos h4]

theorem decode_peel_luma (B B2 : Nat) (more : List Nat) (n : Nat) (dst : DecState)
    (h1 : ¬B = 254) (h2 : ¬B = 255) (h3 : ¬B >>> 6 = 0) (h4 : ¬B >>> 6 = 1)
    (h5 : B >>> 6 = 2) :
    decode_pixels (B :: B2 :: more) (n + 1) dst =
      (decode_pixels more n (dec_upd dst (lumaPix B B2 dst.px))).map
        (fun pr => (lumaPix B B2 dst.px :: pr.1, pr.2)) := by
  simp only [decode_pixels, decode_luma]
  rw [if_neg h1, if_neg h2, if_neg h3, if_neg h4, if_pos h5]

theorem decode_peel_rgb (r g b : Nat) (more : List Nat) (n : Nat) (dst : DecState) :
    decode_pixels (254 :: r :: g :: b :: more) (n + 1) dst =
      (decode_pixels more n (dec_upd dst ⟨r, g, b, dst.px.a⟩)).map
        (fun pr => ((⟨r, g, b, dst.px.a⟩ : Pix) :: pr.1, pr.2)) := by
  simp only [decode_pixels, decode_rgb]
  rw [if_pos trivial]

theorem decode_peel_rgba (r g b a : Nat) (more : List Nat) (n : Nat)
    (dst : DecState) :
    decode_pixels (255 :: r :: g :: b :: a :: more) (n + 1) dst =
      (decode_pixels more n (dec_upd dst ⟨r, g, b, a⟩)).map
        (fun pr => ((⟨r, g, b, a⟩ : Pix) :: pr.1, pr.2)) := by
  simp only [decode_pixels, decode_rgba]
  rw [if_neg (by decide : ¬(255 : Nat) = 254), if_pos trivial]

theorem decode_peel_run (B r n : Nat) (more : List Nat) (dst : DecState)
    (h1 : ¬B = 254) (h2 : ¬B = 255) (h3 : ¬B >>> 6 = 0) (h4 : ¬B >>> 6 = 1)
    (h5 : ¬B >>> 6 = 2) (h6 : B &&& 63 = r) (hle : r + 1 ≤ n + 1) :
    decode_pixels (B :: more) (n + 1) dst =
      (decode_pixels more (n - r) (dec_upd dst dst.px)).map
        (fun pr => (List.replicate (r + 1) dst.px ++ pr.1, pr.2)) := by
  simp only [decode_pixels]
  rw [if_neg h1, if_neg h2, if_neg h3, if_neg h4, if_neg h5, h6]
  have hm : min (r + 1) (n + 1) = r + 1 := by omega
  rw [hm]
  have hsub : n + 1 - (r + 1) = n - r := by omega
  rw [hsub]

/-! ### Round-trip: the input as RGBA pixels -/

theorem toRGBA_succ_eq (c k : Nat) (pixels : List Nat) (px0 : Pix)
    (hc : c = 3 ∨ c = 4) (ha : c = 3 → px0.a = 255) :
    toRGBA c (k + 1) pixels =
      copy_px c (pixels.take c) px0 :: toRGBA c k (pixels.drop c) := by
  rcases hc with rfl | rfl
  · have h0 := list_getD_take pixels 3 0 (0 : Nat) (by omega)
    have h1 := list_getD_take pixels 3 1 (0 : Nat) (by omega)
    have h2 := list_getD_take pixels 3 2 (0 : Nat) (by omega)
    simp only [toRGBA, copy_px]
    rw [if_neg (by decide : ¬(3 : Nat) = 4), if_neg (by decide : ¬(3 : Nat) = 4),
      h0, h1, h2, ha rfl]
  · have h0 := list_getD_take pixels 4 0 (0 : Nat) (by omega)
    have h1 := list_getD_take pixels 4 1 (0 : Nat) (by omega)
    have h2 := list_getD_take pixels 4 2 (0 : Nat) (by omega)
    have h3 := list_getD_take pixels 4 3 (0 : Nat) (by omega)
    simp only [toRGBA, copy_px]
    first
    | rw [if_pos trivial, if_pos trivial]
    | rw [if_pos (rfl : (4 : Nat) = 4), if_pos (rfl : (4 : Nat) = 4)]
    rw [h0, h1, h2, h3]

theorem toRGBA_flatten (c : Nat) (hc : c = 3 ∨ c = 4) :
    ∀ (k : Nat) (pixels : List Nat), pixels.length = c * k →
      (toRGBA c k pixels).flatMap
        (fun p => if c = 4 then [p.r, p.g, p.b, p.a] else [p.r, p.g, p.b]) =
        pixels := by
  intro k
  induction k with
  | zero =>
    intro pixels hlen
    have hnil : pixels = [] := List.eq_nil_of_length_eq_zero (by omega)
    subst hnil
    simp [toRGBA]
  | succ k ih =>
    intro pixels hlen
    rcases hc with rfl | rfl
    · rcases pixels with _ | ⟨p0, _ | ⟨p1, _ | ⟨p2, rest⟩⟩⟩ <;>
        simp only [List.length_nil, List.length_cons] at hlen <;>
        try omega
      have hr : rest.length = 3 * k := by omega
      have hfun : (fun (p : Pix) =>
          if (3 : Nat) = 4 then [p.r, p.g, p.b, p.a] else [p.r, p.g, p.b]) =
          (fun p => [p.r, p.g, p.b]) := by
        funext p
        rw [if_neg (by decide : ¬(3 : Nat) = 4)]
      rw [hfun] at ih ⊢
      simp only [toRGBA, List.flatMap_cons, List.drop_succ_cons, List.drop_zero]
      rw [if_neg (by decide : ¬(3 : Nat) = 4), ih rest hr]
      rfl
    · rcases pixels with _ | ⟨p0, _ | ⟨p1, _ | ⟨p2, _ | ⟨p3, rest⟩⟩⟩⟩ <;>
        simp only [List.length_nil, List.length_cons] at hlen <;>
        try omega
      have hr : rest.length = 4 * k := by omega
      have hfun : (fun (p : Pix) =>
          if (4 : Nat) = 4 then [p.r, p.g, p.b, p.a] else [p.r, p.g, p.b]) =
          (fun p => [p.r, p.g, p.b, p.a]) := by
        funext p
        first
        | rw [if_pos trivial]
        | rw [if_pos (rfl : (4 : Nat) = 4)]
      rw [hfun] at ih ⊢
      simp only [toRGBA, List.flatMap_cons, List.drop_succ_cons, List.drop_zero]
      first
      | rw [if_pos trivial]
      | rw [if_pos (rfl : (4 : Nat) = 4)]
      rw [ih rest hr]
      rfl

theorem toRGBA_alpha (c : Nat) (hc : ¬c = 4) :
    ∀ (k : Nat) (pixels : List Nat), ∀ p ∈ toRGBA c k pixels, p.a = 255 := by
  intro k
  induction k with
  | zero =>
    intro pixels p hp
    simp [toRGBA] at hp
  | succ k ih =>
    intro pixels p hp
    simp only [toRGBA, if_neg hc, List.mem_cons] at hp
    rcases hp with rfl | hp
    · rfl
    · exact ih _ p hp

/-! ### Round-trip: the simulation invariant

The decoder updates its index table after every chunk (including `INDEX`
and `RUN` chunks), while the encoder stores a pixel only when it emits a
`DIFF`/`LUMA`/`RGB`/`RGBA` chunk.  Every extra decoder write stores a pixel
`p` at slot `index_position p`, so a diverged slot always holds a pixel
hashing to it while the encoder's value for that slot does not. -/

def SimInv (c : Nat) (st : EncState) (dst : DecState) : Prop :=
  dst.px = st.px_prev ∧
  (∀ s, s < 64 →
    dst.index.getD s ⟨0, 0, 0, 0⟩ = st.index.getD s ⟨0, 0, 0, 0⟩ ∨
      (index_position (dst.index.getD s ⟨0, 0, 0, 0⟩) = s ∧
        ¬index_position (st.index.getD s ⟨0, 0, 0, 0⟩) = s)) ∧
  (st.index.getD (index_position st.px_prev) ⟨0, 0, 0, 0⟩ = st.px_prev ∨
    ¬index_position (st.index.getD (index_position st.px_prev) ⟨0, 0, 0, 0⟩) =
      index_position st.px_prev) ∧
  (c = 3 → st.px.a = 255 ∧ st.px_prev.a = 255)

theorem I_runflush (stIdx : List Pix) (dst : DecState) (p : Pix)
    (hdl : dst.index.length = 64) (hpx : dst.px = p)
    (hI : ∀ s, s < 64 →
      dst.index.getD s ⟨0, 0, 0, 0⟩ = stIdx.getD s ⟨0, 0, 0, 0⟩ ∨
        (index_position (dst.index.getD s ⟨0, 0, 0, 0⟩) = s ∧
          ¬index_position (stIdx.getD s ⟨0, 0, 0, 0⟩) = s))
    (hJ : stIdx.getD (index_position p) ⟨0, 0, 0, 0⟩ = p ∨
      ¬index_position (stIdx.getD (index_position p) ⟨0, 0, 0, 0⟩) =
        index_position p) :
    ∀ s, s < 64 →
      (dec_upd dst dst.px).index.getD s ⟨0, 0, 0, 0⟩ = stIdx.getD s ⟨0, 0, 0, 0⟩ ∨
        (index_position ((dec_upd dst dst.px).index.getD s ⟨0, 0, 0, 0⟩) = s ∧
          ¬index_position (stIdx.getD s ⟨0, 0, 0, 0⟩) = s) := by
  intro s hs
  by_cases hse : index_position dst.px = s
  · have hget : (dec_upd dst dst.px).index.getD s ⟨0, 0, 0, 0⟩ = dst.px := by
      simp only [dec_upd]
      rw [← hse]
      exact list_getD_set_self _ _ _ _ (by rw [hdl]; exact index_position_lt dst.px)
    rw [hget, hpx]
    rw [hpx] at hse
    rcases hJ with hJ1 | hJ2
    · left
      rw [hse] at hJ1
      exact hJ1.symm
    · right
      rw [hse] at hJ2
      exact ⟨hse, hJ2⟩
  · have hget : (dec_upd dst dst.px).index.getD s ⟨0, 0, 0, 0⟩ =
        dst.index.getD s ⟨0, 0, 0, 0⟩ := by
      simp only [dec_upd]
      exact list_getD_set_ne _ _ _ _ _ hse
    rw [hget]
    exact hI s hs

theorem I_store (stIdx : List Pix) (dst2 : DecState) (px : Pix)
    (hdl : dst2.index.length = 64) (hsl : stIdx.length = 64)
    (hI : ∀ s, s < 64 →
      dst2.index.getD s ⟨0, 0, 0, 0⟩ = stIdx.getD s ⟨0, 0, 0, 0⟩ ∨
        (index_position (dst2.index.getD s ⟨0, 0, 0, 0⟩) = s ∧
          ¬index_position (stIdx.getD s ⟨0, 0, 0, 0⟩) = s)) :
    ∀ s, s < 64 →
      (dec_upd dst2 px).index.getD s ⟨0, 0, 0, 0⟩ =
          (stIdx.set (index_position px) px).getD s ⟨0, 0, 0, 0⟩ ∨
        (index_position ((dec_upd dst2 px).index.getD s ⟨0, 0, 0, 0⟩) = s ∧
          ¬index_position ((stIdx.set (index_position px) px).getD s
            ⟨0, 0, 0, 0⟩) = s) := by
  intro s hs
  by_cases hse : index_position px = s
  · left
    simp only [dec_upd]
    rw [← hse,
      list_getD_set_self _ _ _ _ (by rw [hdl]; exact index_position_lt px),
      list_getD_set_self _ _ _ _ (by rw [hsl]; exact index_position_lt px)]
  · simp only [dec_upd]
    rw [list_getD_set_ne _ _ _ _ _ hse, list_getD_set_ne _ _ _ _ _ hse]
    exact hI s hs

theorem I_hit (stIdx : List Pix) (dst2 : DecState) (px : Pix)
    (hdl : dst2.index.length = 64)
    (hhit : stIdx.getD (index_position px) ⟨0, 0, 0, 0⟩ = px)
    (hI : ∀ s, s < 64 →
      dst2.index.getD s ⟨0, 0, 0, 0⟩ = stIdx.getD s ⟨0, 0, 0, 0⟩ ∨
        (index_position (dst2.index.getD s ⟨0, 0, 0, 0⟩) = s ∧
          ¬index_position (stIdx.getD s ⟨0, 0, 0, 0⟩) = s)) :
    ∀ s, s < 64 →
      (dec_upd dst2 px).index.getD s ⟨0, 0, 0, 0⟩ = stIdx.getD s ⟨0, 0, 0, 0⟩ ∨
        (index_position ((dec_upd dst2 px).index.getD s ⟨0, 0, 0, 0⟩) = s ∧
          ¬index_position (stIdx.getD s ⟨0, 0, 0, 0⟩) = s) := by
  intro s hs
  by_cases hse : index_position px = s
  · left
    simp only [dec_upd]
    rw [← hse,
      list_getD_set_self _ _ _ _ (by rw [hdl]; exact index_position_lt px)]
    exact hhit.symm
  · simp only [dec_upd]
    rw [list_getD_set_ne _ _ _ _ _ hse]
    exact hI s hs

theorem I_lookup (stIdx : List Pix) (dst2 : DecState) (px : Pix)
    (hhit : stIdx.getD (index_position px) ⟨0, 0, 0, 0⟩ = px)
    (hI : ∀ s, s < 64 →
      dst2.index.getD s ⟨0, 0, 0, 0⟩ = stIdx.getD s ⟨0, 0, 0, 0⟩ ∨
        (index_position (dst2.index.getD s ⟨0, 0, 0, 0⟩) = s ∧
          ¬index_position (stIdx.getD s ⟨0, 0, 0, 0⟩) = s)) :
    dst2.index.getD (index_position px) ⟨0, 0, 0, 0⟩ = px := by
  rcases hI (index_position px) (index_position_lt px) with h | ⟨_, h2⟩
  · rw [h, hhit]
  · exfalso
    apply h2
    rw [hhit]

theorem replicate_cons_assoc {α : Type} (r : Nat) (p : α) (rest : List α) :
    List.replicate r p ++ p :: rest = List.replicate (r + 1) p ++ rest := by
  rw [List.replicate_succ', List.append_assoc, List.singleton_append]

/-! ### Round-trip: the pending-run flush composed with one opcode -/

theorem decode_flush_then_op (r k : Nat) (hr : r ≤ 61) (px : Pix)
    (opbytes more : List Nat) (dst dst2 : DecState)
    (hmid : dst2 = if r = 0 then dst else dec_upd dst dst.px)
    (hpeel : ∀ (m : Nat) (mo : List Nat),
      decode_pixels (opbytes ++ mo) (m + 1) dst2 =
        (decode_pixels mo m (dec_upd dst2 px)).map
          (fun pr => (px :: pr.1, pr.2))) :
    decode_pixels (runFlush r ++ opbytes ++ more) (r + (k + 1)) dst =
      (decode_pixels more k (dec_upd dst2 px)).map
        (fun pr => (List.replicate r dst.px ++ px :: pr.1, pr.2)) := by
  by_cases hr0 : r = 0
  · subst hr0
    rw [if_pos rfl] at hmid
    subst hmid
    simpa [runFlush] using hpeel k more
  · rw [if_neg hr0] at hmid
    have hrr : r - 1 < 62 := by omega
    obtain ⟨f1, f2, f3, f4, f5, f6⟩ := run_byte_facts (r - 1) hrr
    have hcount : r + (k + 1) = (r + k) + 1 := by omega
    rw [hcount]
    have hflush : runFlush r ++ opbytes ++ more =
        (QOI_OP_RUN ||| (r - 1)) :: (opbytes ++ more) := by
      simp [runFlush, hr0, List.append_assoc]
    rw [hflush,
      decode_peel_run (QOI_OP_RUN ||| (r - 1)) (r - 1) (r + k) (opbytes ++ more)
        dst f1 f2 f3 f4 f5 f6 (by omega)]
    have hc2 : (r + k) - (r - 1) = k + 1 := by omega
    rw [hc2, ← hmid, hpeel k more, Option.map_map]
    congr 1
    funext pr
    simp only [Function.comp]
    have hr1 : r - 1 + 1 = r := by omega
    rw [hr1]

/-- The initial decoder state satisfies the invariant against the initial
encoder state: every slot agrees, and the slot of the starting pixel
`(0, 0, 0, 255)` (slot 53) holds `(0, 0, 0, 0)`, which hashes to 0. -/
theorem siminv_init (c : Nat) (out0 : List Nat) :
    SimInv c (qoi_init_state out0)
      ⟨⟨0, 0, 0, 255⟩, List.replicate 64 ⟨0, 0, 0, 0⟩⟩ := by
  have h : ¬index_position ((List.replicate 64 (⟨0, 0, 0, 0⟩ : Pix)).getD
      (index_position (⟨0, 0, 0, 255⟩ : Pix)) ⟨0, 0, 0, 0⟩) =
      index_position (⟨0, 0, 0, 255⟩ : Pix) := by decide
  exact ⟨rfl, fun s hs => Or.inl rfl, Or.inr h, fun h3 => ⟨rfl, rfl⟩⟩

theorem out_flush_eq (out : List Nat) (run : Nat) :
    (if run > 0 then write_u8 out (QOI_OP_RUN ||| (run - 1)) else out) =
      out ++ runFlush run := by
  by_cases h : run = 0
  · rw [if_neg (by omega), runFlush, if_pos h, List.append_nil]
  · rw [if_pos (by omega), runFlush, if_neg h]
    rfl

/-- The common ending of every chunk-emitting step of the simulation: the
pending run is flushed, the opcode bytes decode to the encoded pixel, and
the induction hypothesis covers the remaining chunks. -/
theorem sim_step_finish (buflen c : Nat) (k : Nat)
    (pixels : List Nat) (st st' st1 : EncState) (dst dst2 : DecState) (px : Pix)
    (opbytes : List Nat)
    (ih : ∀ (pixels2 : List Nat) (sta stb : EncState) (dsta : DecState),
      encode_loop buflen c k pixels2 sta = .ok stb →
      (∀ b ∈ pixels2, b < 256) →
      c * k ≤ pixels2.length → sta.run ≤ 61 → dsta.index.length = 64 →
      sta.index.length = 64 → SimInv c sta dsta →
      ∃ Δ, stb.out = sta.out ++ Δ ∧
        ∀ tail, decode_pixels (Δ ++ (runFlush stb.run ++ tail)) (sta.run + k) dsta =
          some (List.replicate sta.run sta.px_prev ++ toRGBA c k pixels2, tail))
    (hok : encode_loop buflen c k (pixels.drop c) st1 = .ok st')
    (hbdrop : ∀ b ∈ pixels.drop c, b < 256)
    (hck : c * k ≤ (pixels.drop c).length)
    (hout1 : st1.out = st.out ++ runFlush st.run ++ opbytes)
    (hrun1 : st1.run = 0)
    (hpxp1 : st1.px_prev = px)
    (hsl1 : st1.index.length = 64)
    (hdl2 : dst2.index.length = 64)
    (hrun : st.run ≤ 61)
    (hdpx : dst.px = st.px_prev)
    (hmid : dst2 = if st.run = 0 then dst else dec_upd dst dst.px)
    (hpeel : ∀ (m : Nat) (mo : List Nat),
      decode_pixels (opbytes ++ mo) (m + 1) dst2 =
        (decode_pixels mo m (dec_upd dst2 px)).map
          (fun pr => (px :: pr.1, pr.2)))
    (hsim1 : SimInv c st1 (dec_upd dst2 px)) :
    ∃ Δ, st'.out = st.out ++ Δ ∧
      ∀ tail, decode_pixels (Δ ++ (runFlush st'.run ++ tail)) (st.run + (k + 1)) dst =
        some (List.replicate st.run st.px_prev ++ px :: toRGBA c k (pixels.drop c),
          tail) := by
  obtain ⟨Δ', hΔ', hdec'⟩ := ih (pixels.drop c) st1 st' (dec_upd dst2 px) hok hbdrop
    hck (by omega) (by simp [dec_upd, List.length_set, hdl2]) hsl1 hsim1
  refine ⟨runFlush st.run ++ opbytes ++ Δ', ?_, ?_⟩
  · rw [hΔ', hout1]
    simp [List.append_assoc]
  · intro tail
    have hstream : (runFlush st.run ++ opbytes ++ Δ') ++ (runFlush st'.run ++ tail) =
        runFlush st.run ++ opbytes ++ (Δ' ++ (runFlush st'.run ++ tail)) := by
      simp [List.append_assoc]
    rw [hstream,
      decode_flush_then_op st.run k hrun px opbytes (Δ' ++ (runFlush st'.run ++ tail))
        dst dst2 hmid hpeel]
    have hd2 := hdec' tail
    rw [hrun1, hpxp1, Nat.zero_add, List.replicate_zero, List.nil_append] at hd2
    rw [hd2, Option.map_some', hdpx]

/-- The simulation: decoding the bytes emitted by `k` loop steps (followed
by the flush of the still-pending run) yields the pending pixels followed
by the `k` processed input pixels. -/
theorem sim_loop (buflen c : Nat) (hc : c = 3 ∨ c = 4) :
    ∀ (k : Nat) (pixels : List Nat) (st st' : EncState) (dst : DecState),
      encode_loop buflen c k pixels st = .ok st' →
      (∀ b ∈ pixels, b < 256) →
      c * k ≤ pixels.length →
      st.run ≤ 61 →
      dst.index.length = 64 →
      st.index.length = 64 →
      SimInv c st dst →
      ∃ Δ, st'.out = st.out ++ Δ ∧
        ∀ tail, decode_pixels (Δ ++ (runFlush st'.run ++ tail)) (st.run + k) dst =
          some (List.replicate st.run st.px_prev ++ toRGBA c k pixels, tail) := by
  intro k
  induction k with
  | zero =>
    intro pixels st st' dst hok hb hck hrun hdl hsl hsim
    obtain ⟨hdpx, hI, hJ, hA⟩ := hsim
    simp only [encode_loop, Except.ok.injEq] at hok
    subst hok
    refine ⟨[], by simp, ?_⟩
    intro tail
    rw [List.nil_append]
    by_cases hr0 : st.run = 0
    · rw [hr0]
      simp [runFlush, decode_pixels, toRGBA]
    · obtain ⟨r, hr⟩ : ∃ r, st.run = r + 1 := ⟨st.run - 1, by omega⟩
      rw [hr]
      have hfl : runFlush (r + 1) = [QOI_OP_RUN ||| r] := by
        simp [runFlush]
      obtain ⟨f1, f2, f3, f4, f5, f6⟩ := run_byte_facts r (by omega)
      rw [hfl, List.singleton_append]
      have hcnt : r + 1 + 0 = r + 1 := by omega
      rw [hcnt]
      rw [decode_peel_run (QOI_OP_RUN ||| r) r r tail dst f1 f2 f3 f4 f5 f6
        (by omega)]
      have hrr : r - r = 0 := by omega
      rw [hrr]
      simp [decode_pixels, toRGBA, hdpx]
  | succ k ih =>
    intro pixels st st' dst hok hb hck hrun hdl hsl hsim
    obtain ⟨hdpx, hI, hJ, hA⟩ := hsim
    simp only [encode_loop] at hok
    rcases hpx : encode_px buflen c (pixels.take c) st with e | st1 <;> rw [hpx] at hok
    · exact Except.noConfusion hok
    have hbtake : ∀ b ∈ pixels.take c, b < 256 :=
      fun b hbm => hb b (List.take_subset c pixels hbm)
    have hbdrop : ∀ b ∈ pixels.drop c, b < 256 :=
      fun b hbm => hb b (List.drop_subset c pixels hbm)
    have hcklen : c * k ≤ (pixels.drop c).length := by
      rw [List.length_drop]
      have hmul : c * (k + 1) = c * k + c := by ring
      omega
    have halpha : c = 3 → st.px.a = 255 := fun h3 => (hA h3).1
    rw [toRGBA_succ_eq c k pixels st.px hc halpha]
    simp only [encode_px] at hpx
    set px := copy_px c (pixels.take c) st.px with hpxd
    have hchunk : ∀ i, (pixels.take c).getD i 0 < 256 :=
      fun i => list_getD_lt _ hbtake i
    have hrlt : px.r < 256 := by
      rw [hpxd]
      rcases hc with rfl | rfl <;> exact hchunk 0
    have hglt : px.g < 256 := by
      rw [hpxd]
      rcases hc with rfl | rfl <;> exact hchunk 1
    have hblt : px.b < 256 := by
      rw [hpxd]
      rcases hc with rfl | rfl <;> exact hchunk 2
    have halt : px.a < 256 := by
      rw [hpxd]
      rcases hc with rfl | rfl
      · show st.px.a < 256
        have h1 := (hA rfl).1
        omega
      · exact hchunk 3
    by_cases h5 : (!writer_has buflen st.out 5) = true
    · rw [if_pos h5] at hpx
      exact Except.noConfusion hpx
    rw [if_neg h5] at hpx
    by_cases heq : px = st.px_prev
    · rw [if_pos heq] at hpx
      by_cases h62 : st.run + 1 = 62
      · -- run reaches 62: an in-loop RUN flush
        rw [if_pos h62] at hpx
        simp only [Except.ok.injEq] at hpx
        subst hpx
        have hr61 : st.run = 61 := by omega
        have hsim1 : SimInv c
            (⟨write_u8 st.out (QOI_OP_RUN ||| (st.run + 1 - 1)), st.index, px, px, 0⟩ :
              EncState) (dec_upd dst dst.px) := by
          refine ⟨?_, ?_, ?_, ?_⟩
          · show dst.px = px
            rw [heq]
            exact hdpx
          · exact I_runflush st.index dst st.px_prev hdl hdpx hI hJ
          · show st.index.getD (index_position px) ⟨0, 0, 0, 0⟩ = px ∨
              ¬index_position (st.index.getD (index_position px) ⟨0, 0, 0, 0⟩) =
                index_position px
            rw [heq]
            exact hJ
          · intro h3
            constructor <;> (show px.a = 255; rw [heq]; exact (hA h3).2)
        obtain ⟨Δ', hΔ', hdec'⟩ := ih (pixels.drop c) _ st' (dec_upd dst dst.px) hok
          hbdrop hcklen (Nat.zero_le 61)
          (by simp [dec_upd, List.length_set, hdl]) hsl hsim1
        refine ⟨(QOI_OP_RUN ||| (st.run + 1 - 1)) :: Δ', ?_, ?_⟩
        · rw [hΔ']
          dsimp only
          simp [write_u8]
        · intro tail
          have hd2 := hdec' tail
          dsimp only at hd2
          rw [Nat.zero_add, List.replicate_zero, List.nil_append] at hd2
          have hB : st.run + 1 - 1 = 61 := by omega
          rw [hB, hr61, List.cons_append]
          have hcnt : 61 + (k + 1) = (61 + k) + 1 := by omega
          rw [hcnt]
          obtain ⟨f1, f2, f3, f4, f5, f6⟩ := run_byte_facts 61 (by omega)
          rw [decode_peel_run (QOI_OP_RUN ||| 61) 61 (61 + k)
            (Δ' ++ (runFlush st'.run ++ tail)) dst f1 f2 f3 f4 f5 f6 (by omega)]
          have hc2 : 61 + k - 61 = k := by omega
          rw [hc2, hd2, Option.map_some', hdpx, heq, replicate_cons_assoc]
      · -- run keeps accumulating, no bytes emitted
        rw [if_neg h62] at hpx
        simp only [Except.ok.injEq] at hpx
        subst hpx
        have hrun1 : st.run + 1 ≤ 61 := by omega
        have hsim1 : SimInv c
            (⟨st.out, st.index, px, px, st.run + 1⟩ : EncState) dst := by
          refine ⟨?_, hI, ?_, ?_⟩
          · show dst.px = px
            rw [heq]
            exact hdpx
          · show st.index.getD (index_position px) ⟨0, 0, 0, 0⟩ = px ∨
              ¬index_position (st.index.getD (index_position px) ⟨0, 0, 0, 0⟩) =
                index_position px
            rw [heq]
            exact hJ
          · intro h3
            constructor <;> (show px.a = 255; rw [heq]; exact (hA h3).2)
        obtain ⟨Δ', hΔ', hdec'⟩ := ih (pixels.drop c) _ st' dst hok hbdrop hcklen
          hrun1 hdl hsl hsim1
        refine ⟨Δ', hΔ', ?_⟩
        intro tail
        have hd2 := hdec' tail
        dsimp only at hd2
        have hcnt : st.run + (k + 1) = st.run + 1 + k := by omega
        rw [hcnt, hd2, heq, replicate_cons_assoc]
    · rw [if_neg heq] at hpx
      set ipos := (px.r * 3 + px.g * 5 + px.b * 7 + px.a * 11) % 64 with hipos
      have hip : ipos = index_position px := hipos
      have hiposlt : ipos < 64 := by
        rw [hip]
        exact index_position_lt px
      set dst2 := if st.run = 0 then dst else dec_upd dst dst.px with hmid
      have hdl2 : dst2.index.length = 64 := by
        rw [hmid]
        by_cases h : st.run = 0
        · rw [if_pos h]
          exact hdl
        · rw [if_neg h]
          simp [dec_upd, List.length_set, hdl]
      have hdpx2 : dst2.px = st.px_prev := by
        rw [hmid]
        by_cases h : st.run = 0
        · rw [if_pos h]
          exact hdpx
        · rw [if_neg h]
          exact hdpx
      have hI2 : ∀ s, s < 64 →
          dst2.index.getD s ⟨0, 0, 0, 0⟩ = st.index.getD s ⟨0, 0, 0, 0⟩ ∨
            (index_position (dst2.index.getD s ⟨0, 0, 0, 0⟩) = s ∧
              ¬index_position (st.index.getD s ⟨0, 0, 0, 0⟩) = s) := by
        rw [hmid]
        by_cases h : st.run = 0
        · rw [if_pos h]
          exact hI
        · rw [if_neg h]
          exact I_runflush st.index dst st.px_prev hdl hdpx hI hJ
      have hpa3 : c = 3 → px.a = 255 := by
        intro h3
        rw [hpxd, h3]
        show st.px.a = 255
        exact (hA h3).1
      by_cases hidx : st.index.getD ipos ⟨0, 0, 0, 0⟩ = px
      · -- INDEX hit
        rw [if_pos hidx] at hpx
        simp only [Except.ok.injEq] at hpx
        subst hpx
        have hidx' : st.index.getD (index_position px) ⟨0, 0, 0, 0⟩ = px := by
          rw [← hip]
          exact hidx
        obtain ⟨g1, g2, g3, g4, g5⟩ := index_byte_facts ipos hiposlt
        have hlook : dst2.index.getD ipos ⟨0, 0, 0, 0⟩ = px := by
          have h := I_lookup st.index dst2 px hidx' hI2
          rw [hip]
          exact h
        have hpeel : ∀ (m : Nat) (mo : List Nat),
            decode_pixels ([QOI_OP_INDEX ||| ipos] ++ mo) (m + 1) dst2 =
              (decode_pixels mo m (dec_upd dst2 px)).map
                (fun pr => (px :: pr.1, pr.2)) := by
          intro m mo
          rw [List.singleton_append, g1, decode_peel_index ipos mo m dst2 g2 g3 g4,
            g5, hlook]
        exact sim_step_finish buflen c k pixels st st' _ dst dst2 px
          [QOI_OP_INDEX ||| ipos] ih hok hbdrop hcklen
          (by dsimp only; rw [out_flush_eq]; simp [write_u8, List.append_assoc])
          rfl rfl hsl hdl2 hrun hdpx hmid hpeel
          (by
            refine ⟨rfl, ?_, ?_, ?_⟩
            · exact I_hit st.index dst2 px hdl2 hidx' hI2
            · exact Or.inl hidx'
            · intro h3
              exact ⟨hpa3 h3, hpa3 h3⟩)
      · rw [if_neg hidx] at hpx
        by_cases haeq : px.a = st.px_prev.a
        · rw [if_pos haeq] at hpx
          set vr := wsub px.r st.px_prev.r with hvr
          set vg := wsub px.g st.px_prev.g with hvg
          set vb := wsub px.b st.px_prev.b with hvb
          set vgr := wsub vr vg with hvgr
          set vgb := wsub vb vg with hvgb
          have hvrlt : vr < 256 := by rw [hvr]; exact wsub_lt _ _
          have hvglt : vg < 256 := by rw [hvg]; exact wsub_lt _ _
          have hvblt : vb < 256 := by rw [hvb]; exact wsub_lt _ _
          have hvgrlt : vgr < 256 := by rw [hvgr]; exact wsub_lt _ _
          have hvgblt : vgb < 256 := by rw [hvgb]; exact wsub_lt _ _
          by_cases hdiff : (vr < 2 ∨ vr > 253) ∧ (vg < 2 ∨ vg > 253) ∧
              (vb < 2 ∨ vb > 253)
          · -- DIFF
            rw [if_pos hdiff] at hpx
            simp only [Except.ok.injEq] at hpx
            subst hpx
            have hxlt : wadd vr 2 < 4 := wadd2_lt vr hvrlt hdiff.1
            have hylt : wadd vg 2 < 4 := wadd2_lt vg hvglt hdiff.2.1
            have hzlt : wadd vb 2 < 4 := wadd2_lt vb hvblt hdiff.2.2
            obtain ⟨g1, g2, g3, g4, g5, g6, g7⟩ :=
              diff_byte_facts (wadd vr 2) hxlt (wadd vg 2) hylt (wadd vb 2) hzlt
            have hpix : diffPix
                (QOI_OP_DIFF ||| wshl (wadd vr 2) 4 ||| wshl (wadd vg 2) 2 |||
                  wadd vb 2) dst2.px = px := by
              have cr : wadd dst2.px.r
                  (wadd ((QOI_OP_DIFF ||| wshl (wadd vr 2) 4 ||| wshl (wadd vg 2) 2 |||
                    wadd vb 2) >>> 4 &&& 3) 254) = px.r := by
                rw [g5, hdpx2, hvr]
                exact diff_inv st.px_prev.r px.r hrlt
              have cg : wadd dst2.px.g
                  (wadd ((QOI_OP_DIFF ||| wshl (wadd vr 2) 4 ||| wshl (wadd vg 2) 2 |||
                    wadd vb 2) >>> 2 &&& 3) 254) = px.g := by
                rw [g6, hdpx2, hvg]
                exact diff_inv st.px_prev.g px.g hglt
              have cb : wadd dst2.px.b
                  (wadd ((QOI_OP_DIFF ||| wshl (wadd vr 2) 4 ||| wshl (wadd vg 2) 2 |||
                    wadd vb 2) &&& 3) 254) = px.b := by
                rw [g7, hdpx2, hvb]
                exact diff_inv st.px_prev.b px.b hblt
              have ca : dst2.px.a = px.a := by
                rw [hdpx2]
                exact haeq.symm
              simp only [diffPix]
              rw [cr, cg, cb, ca]
            have hpeel : ∀ (m : Nat) (mo : List Nat),
                decode_pixels ([QOI_OP_DIFF ||| wshl (wadd vr 2) 4 |||
                    wshl (wadd vg 2) 2 ||| wadd vb 2] ++ mo) (m + 1) dst2 =
                  (decode_pixels mo m (dec_upd dst2 px)).map
                    (fun pr => (px :: pr.1, pr.2)) := by
              intro m mo
              rw [List.singleton_append, decode_peel_diff _ mo m dst2 g1 g2 g3 g4,
                hpix]
            exact sim_step_finish buflen c k pixels st st' _ dst dst2 px
              [QOI_OP_DIFF ||| wshl (wadd vr 2) 4 ||| wshl (wadd vg 2) 2 ||| wadd vb 2]
              ih hok hbdrop hcklen
              (by dsimp only; rw [out_flush_eq]; simp [write_u8, List.append_assoc])
              rfl rfl
              (by dsimp only; rw [List.length_set]; exact hsl)
              hdl2 hrun hdpx hmid hpeel
              (by
                refine ⟨rfl, ?_, ?_, ?_⟩
                · have hIst := I_store st.index dst2 px hdl2 hsl hI2
                  rw [← hip] at hIst
                  exact hIst
                · show (st.index.set ipos px).getD (index_position px) ⟨0, 0, 0, 0⟩ =
                      px ∨
                    ¬index_position ((st.index.set ipos px).getD (index_position px)
                      ⟨0, 0, 0, 0⟩) = index_position px
                  rw [← hip]
                  exact Or.inl (list_getD_set_self st.index ipos px ⟨0, 0, 0, 0⟩
                    (by rw [hsl]; exact hiposlt))
                · intro h3
                  exact ⟨hpa3 h3, hpa3 h3⟩)
          · rw [if_neg hdiff] at hpx
            by_cases hluma : (vgr > 247 ∨ vgr < 8) ∧ (vg > 223 ∨ vg < 32) ∧
                (vgb > 247 ∨ vgb < 8)
            · -- LUMA
              rw [if_pos hluma] at hpx
              simp only [Except.ok.injEq] at hpx
              subst hpx
              have hwlt : wadd vg 32 < 64 := wadd32_lt vg hvglt hluma.2.1
              obtain ⟨l1, l2, l3, l4, l5, l6⟩ := luma_b1_facts (wadd vg 32) hwlt
              have hxlt : wadd vgr 8 < 16 := wadd8_lt vgr hvgrlt hluma.1
              have hzlt : wadd vgb 8 < 16 := wadd8_lt vgb hvgblt hluma.2.2
              obtain ⟨m1, m2⟩ := luma_b2_facts (wadd vgr 8) hxlt (wadd vgb 8) hzlt
              have hpix : lumaPix (QOI_OP_LUMA ||| wadd vg 32)
                  (wshl (wadd vgr 8) 4 ||| wadd vgb 8) dst2.px = px := by
                have cr : wadd dst2.px.r
                    (wadd (wadd ((QOI_OP_LUMA ||| wadd vg 32) &&& 63) 224)
                      (wadd ((wshl (wadd vgr 8) 4 ||| wadd vgb 8) >>> 4 &&& 15) 248)) =
                    px.r := by
                  rw [l6, m1, hdpx2, luma_vg_inv vg hvglt, hvgr, hvr]
                  exact luma_rb_inv st.px_prev.r px.r vg hrlt
                have cg : wadd dst2.px.g
                    (wadd ((QOI_OP_LUMA ||| wadd vg 32) &&& 63) 224) = px.g := by
                  rw [l6, hdpx2, luma_vg_inv vg hvglt, hvg]
                  exact wadd_wsub_cancel px.g st.px_prev.g hglt
                have cb : wadd dst2.px.b
                    (wadd (wadd ((QOI_OP_LUMA ||| wadd vg 32) &&& 63) 224)
                      (wadd ((wshl (wadd vgr 8) 4 ||| wadd vgb 8) &&& 15) 248)) =
                    px.b := by
                  rw [l6, m2, hdpx2, luma_vg_inv vg hvglt, hvgb, hvb]
                  exact luma_rb_inv st.px_prev.b px.b vg hblt
                have ca : dst2.px.a = px.a := by
                  rw [hdpx2]
                  exact haeq.symm
                simp only [lumaPix]
                rw [cr, cg, cb, ca]
              have hpeel : ∀ (m : Nat) (mo : List Nat),
                  decode_pixels ([QOI_OP_LUMA ||| wadd vg 32,
                      wshl (wadd vgr 8) 4 ||| wadd vgb 8] ++ mo) (m + 1) dst2 =
                    (decode_pixels mo m (dec_upd dst2 px)).map
                      (fun pr => (px :: pr.1, pr.2)) := by
                intro m mo
                have hsh : [QOI_OP_LUMA ||| wadd vg 32,
                    wshl (wadd vgr 8) 4 ||| wadd vgb 8] ++ mo =
                    (QOI_OP_LUMA ||| wadd vg 32) ::
                      (wshl (wadd vgr 8) 4 ||| wadd vgb 8) :: mo := rfl
                rw [hsh, decode_peel_luma _ _ mo m dst2 l1 l2 l3 l4 l5, hpix]
              exact sim_step_finish buflen c k pixels st st' _ dst dst2 px
                [QOI_OP_LUMA ||| wadd vg 32, wshl (wadd vgr 8) 4 ||| wadd vgb 8]
                ih hok hbdrop hcklen
                (by dsimp only; rw [out_flush_eq]; simp [write_u8, List.append_assoc])
                rfl rfl
                (by dsimp only; rw [List.length_set]; exact hsl)
                hdl2 hrun hdpx hmid hpeel
                (by
                  refine ⟨rfl, ?_, ?_, ?_⟩
                  · have hIst := I_store st.index dst2 px hdl2 hsl hI2
                    rw [← hip] at hIst
                    exact hIst
                  · show (st.index.set ipos px).getD (index_position px)
                        ⟨0, 0, 0, 0⟩ = px ∨
                      ¬index_position ((st.index.set ipos px).getD (index_position px)
                        ⟨0, 0, 0, 0⟩) = index_position px
                    rw [← hip]
                    exact Or.inl (list_getD_set_self st.index ipos px ⟨0, 0, 0, 0⟩
                      (by rw [hsl]; exact hiposlt))
                  · intro h3
                    exact ⟨hpa3 h3, hpa3 h3⟩)
            · -- RGB
              rw [if_neg hluma] at hpx
              simp only [Except.ok.injEq] at hpx
              subst hpx
              have hpix : (⟨px.r, px.g, px.b, dst2.px.a⟩ : Pix) = px := by
                rw [hdpx2, ← haeq]
              have hpeel : ∀ (m : Nat) (mo : List Nat),
                  decode_pixels ([QOI_OP_RGB, px.r, px.g, px.b] ++ mo) (m + 1) dst2 =
                    (decode_pixels mo m (dec_upd dst2 px)).map
                      (fun pr => (px :: pr.1, pr.2)) := by
                intro m mo
                have hsh : [QOI_OP_RGB, px.r, px.g, px.b] ++ mo =
                    254 :: px.r :: px.g :: px.b :: mo := rfl
                rw [hsh, decode_peel_rgb px.r px.g px.b mo m dst2, hpix]
              exact sim_step_finish buflen c k pixels st st' _ dst dst2 px
                [QOI_OP_RGB, px.r, px.g, px.b]
                ih hok hbdrop hcklen
                (by dsimp only; rw [out_flush_eq]; simp [write_u8, List.append_assoc])
                rfl rfl
                (by dsimp only; rw [List.length_set]; exact hsl)
                hdl2 hrun hdpx hmid hpeel
                (by
                  refine ⟨rfl, ?_, ?_, ?_⟩
                  · have hIst := I_store st.index dst2 px hdl2 hsl hI2
                    rw [← hip] at hIst
                    exact hIst
                  · show (st.index.set ipos px).getD (index_position px)
                        ⟨0, 0, 0, 0⟩ = px ∨
                      ¬index_position ((st.index.set ipos px).getD (index_position px)
                        ⟨0, 0, 0, 0⟩) = index_position px
                    rw [← hip]
                    exact Or.inl (list_getD_set_self st.index ipos px ⟨0, 0, 0, 0⟩
                      (by rw [hsl]; exact hiposlt))
                  · intro h3
                    exact ⟨hpa3 h3, hpa3 h3⟩)
        · -- RGBA
          rw [if_neg haeq] at hpx
          simp only [Except.ok.injEq] at hpx
          subst hpx
          have hpeel : ∀ (m : Nat) (mo : List Nat),
              decode_pixels ([QOI_OP_RGBA, px.r, px.g, px.b, px.a] ++ mo) (m + 1)
                  dst2 =
                (decode_pixels mo m (dec_upd dst2 px)).map
                  (fun pr => (px :: pr.1, pr.2)) := by
            intro m mo
            have hsh : [QOI_OP_RGBA, px.r, px.g, px.b, px.a] ++ mo =
                255 :: px.r :: px.g :: px.b :: px.a :: mo := rfl
            rw [hsh, decode_peel_rgba px.r px.g px.b px.a mo m dst2,
              show (⟨px.r, px.g, px.b, px.a⟩ : Pix) = px from rfl]
          exact sim_step_finish buflen c k pixels st st' _ dst dst2 px
            [QOI_OP_RGBA, px.r, px.g, px.b, px.a]
            ih hok hbdrop hcklen
            (by
              dsimp only
              rw [write_u32_be, u32_be_bytes_pack px.r px.g px.b px.a hrlt hglt hblt
                halt, out_flush_eq]
              simp [write_u8, List.append_assoc])
            rfl rfl
            (by dsimp only; rw [List.length_set]; exact hsl)
            hdl2 hrun hdpx hmid hpeel
            (by
              refine ⟨rfl, ?_, ?_, ?_⟩
              · have hIst := I_store st.index dst2 px hdl2 hsl hI2
                rw [← hip] at hIst
                exact hIst
              · show (st.index.set ipos px).getD (index_position px) ⟨0, 0, 0, 0⟩ =
                    px ∨
                  ¬index_position ((st.index.set ipos px).getD (index_position px)
                    ⟨0, 0, 0, 0⟩) = index_position px
                rw [← hip]
                exact Or.inl (list_getD_set_self st.index ipos px ⟨0, 0, 0, 0⟩
                  (by rw [hsl]; exact hiposlt))
              · intro h3
                exact ⟨hpa3 h3, hpa3 h3⟩)

/-! ## Claim C1: round-trip -/

/-- C1: for every pixel buffer of bytes whose length matches the header
(`encode_into` succeeds only then), decoding the produced byte stream with
the conforming QOI decoder recovers the header fields and exactly the
original pixel array as RGBA quadruples — with alpha 255 for every pixel of
an RGB input — and flattening those quadruples back over the input's
channel count gives the original byte buffer. -/
theorem C1_round_trip {buflen width height : Nat} {cs : ColorSpace}
    {cc : ColorCharacteristics} {pixels : List Nat} {n : Nat} {out : List Nat}
    (hb : ∀ b ∈ pixels, b < 256)
    (hok : encode_into buflen width height cs cc pixels = .ok (n, out)) :
    qoiDecode out =
      some (width, height, cs.num_components,
        (if cc = ColorCharacteristics.Linear then 1 else 0),
        toRGBA cs.num_components (width * height) pixels) ∧
    (toRGBA cs.num_components (width * height) pixels).flatMap
        (fun p => if cs.num_components = 4 then [p.r, p.g, p.b, p.a]
          else [p.r, p.g, p.b]) = pixels ∧
    (cs = ColorSpace.RGB →
      ∀ p ∈ toRGBA cs.num_components (width * height) pixels, p.a = 255) := by
  simp only [encode_into] at hok
  rcases hhd : encode_headers buflen width height cs cc pixels with e | out0 <;>
    simp only [hhd] at hok
  · exact Except.noConfusion hok
  obtain ⟨hout0, hlen, hw, hh, hbuf, hlum⟩ := encode_headers_ok hhd
  rcases hloop : encode_loop buflen cs.num_components
      (pixels.length / cs.num_components) pixels (qoi_init_state out0) with e | stf <;>
    simp only [hloop] at hok
  · exact Except.noConfusion hok
  simp only [Except.ok.injEq, Prod.mk.injEq] at hok
  obtain ⟨hn, hout⟩ := hok
  subst hn
  subst hout
  have hc : cs.num_components = 3 ∨ cs.num_components = 4 := by
    rcases cs with _ | _ | _
    · exact Or.inl rfl
    · exact Or.inr rfl
    · exact absurd rfl hlum
  have hcpos : 0 < cs.num_components := by rcases hc with h | h <;> omega
  have hk : pixels.length / cs.num_components = width * height := by
    rw [hlen]
    exact Nat.mul_div_cancel _ hcpos
  have hck : cs.num_components * (pixels.length / cs.num_components) ≤
      pixels.length := by
    rw [hk, hlen]
    exact Nat.le_of_eq (by ring)
  obtain ⟨Δ, hΔ, hdec⟩ := sim_loop buflen cs.num_components hc
    (pixels.length / cs.num_components) pixels (qoi_init_state out0) stf
    ⟨⟨0, 0, 0, 255⟩, List.replicate 64 ⟨0, 0, 0, 0⟩⟩ hloop hb hck (Nat.zero_le 61)
    (by simp) (by simp [qoi_init_state]) (siminv_init cs.num_components out0)
  have htr : u64_be_bytes 0x01 = [0, 0, 0, 0, 0, 0, 0, 1] := by decide
  have hdec2 : decode_pixels (Δ ++ (runFlush stf.run ++ [0, 0, 0, 0, 0, 0, 0, 1]))
      (width * height) ⟨⟨0, 0, 0, 255⟩, List.replicate 64 ⟨0, 0, 0, 0⟩⟩ =
      some (toRGBA cs.num_components (width * height) pixels,
        [0, 0, 0, 0, 0, 0, 0, 1]) := by
    have h := hdec [0, 0, 0, 0, 0, 0, 0, 1]
    dsimp only [qoi_init_state] at h
    rw [Nat.zero_add, List.replicate_zero, List.nil_append, hk] at h
    exact h
  have hstream : write_u64_be (if stf.run > 0 then
      write_u8 stf.out (QOI_OP_RUN ||| (stf.run - 1)) else stf.out) 0x01 =
      qoi_header_bytes width height cs cc ++
        (Δ ++ (runFlush stf.run ++ [0, 0, 0, 0, 0, 0, 0, 1])) := by
    rw [write_u64_be, out_flush_eq, hΔ, htr]
    dsimp only [qoi_init_state]
    rw [hout0]
    simp [List.append_assoc]
  rw [hstream]
  have hmagic : u32_be_bytes QOI_MAGIC = [0x71, 0x6f, 0x69, 0x66] := by decide
  have hcsb : (if cc = ColorCharacteristics.Linear then 1 else 0) = 0 ∨
      (if cc = ColorCharacteristics.Linear then 1 else 0) = 1 := by
    by_cases hcc : cc = ColorCharacteristics.Linear
    · right
      rw [if_pos hcc]
    · left
      rw [if_neg hcc]
  have hhdr : qoi_header_bytes width height cs cc ++
      (Δ ++ (runFlush stf.run ++ [0, 0, 0, 0, 0, 0, 0, 1])) =
      0x71 :: 0x6f :: 0x69 :: 0x66 ::
      (width >>> 24 &&& 0xFF) :: (width >>> 16 &&& 0xFF) ::
      (width >>> 8 &&& 0xFF) :: (width &&& 0xFF) ::
      (height >>> 24 &&& 0xFF) :: (height >>> 16 &&& 0xFF) ::
      (height >>> 8 &&& 0xFF) :: (height &&& 0xFF) ::
      cs.num_components :: (if cc = ColorCharacteristics.Linear then 1 else 0) ::
      (Δ ++ (runFlush stf.run ++ [0, 0, 0, 0, 0, 0, 0, 1])) := by
    rw [qoi_header_bytes, hmagic]
    simp [u32_be_bytes]
  rw [hhdr]
  simp only [qoiDecode]
  first
  | rw [if_pos ⟨True.intro, True.intro, True.intro, True.intro, hc, hcsb⟩]
  | rw [if_pos ⟨rfl, rfl, rfl, rfl, hc, hcsb⟩]
  rw [u32_be_recompose width hw, u32_be_recompose height hh]
  rw [hdec2]
  refine ⟨by simp, ?_, ?_⟩
  · exact toRGBA_flatten cs.num_components hc (width * height) pixels
      (by rw [hlen]; ring)
  · intro hRGB
    exact toRGBA_alpha cs.num_components (by rw [hRGB]; decide) (width * height)
      pixels

/-- Witness for C1: a 2×1 RGB image whose encoding exercises an `RGB` chunk
and a `DIFF` chunk; the stream decodes back to the two input pixels with
alpha 255. -/
theorem C1_round_trip_witness :
    qoiDecode [113, 111, 105, 102, 0, 0, 0, 2, 0, 0, 0, 1, 3, 0, 254, 10, 20, 30,
        127, 0, 0, 0, 0, 0, 0, 0, 1] =
      some (2, 1, ColorSpace.RGB.num_components,
        (if ColorCharacteristics.sRGB = ColorCharacteristics.Linear then 1 else 0),
        toRGBA ColorSpace.RGB.num_components (2 * 1) [10, 20, 30, 11, 21, 31]) ∧
    (toRGBA ColorSpace.RGB.num_components (2 * 1) [10, 20, 30, 11, 21, 31]).flatMap
        (fun p => if ColorSpace.RGB.num_components = 4 then [p.r, p.g, p.b, p.a]
          else [p.r, p.g, p.b]) = [10, 20, 30, 11, 21, 31] ∧
    (ColorSpace.RGB = ColorSpace.RGB →
      ∀ p ∈ toRGBA ColorSpace.RGB.num_components (2 * 1) [10, 20, 30, 11, 21, 31],
        p.a = 255) :=
  @C1_round_trip 30 2 1 ColorSpace.RGB ColorCharacteristics.sRGB
    [10, 20, 30, 11, 21, 31] 27
    [113, 111, 105, 102, 0, 0, 0, 2, 0, 0, 0, 1, 3, 0, 254, 10, 20, 30, 127,
      0, 0, 0, 0, 0, 0, 0, 1]
    (by decide) rfl

end ZuneImage
